import Mathlib

/-!
The reward schedule and the CreateCoin transaction of noah-go-node.

A shallow embedding of `core/rewards/rewards.go` and
`core/transaction/create_coin.go`.

Conventions of the embedding:

* `*big.Int` values are `Int`; a `*big.Int` that may be `nil` is `Option Int`.
* `uint64` / `uint` values are `Nat`, reduced `% 2 ^ 64` where Go arithmetic wraps.
* a Go `string` or `[]byte` is the list of its bytes (`List Nat`).
* a Go panic (nil dereference, abort) is the result `none`.
-/

namespace Noah

/-! ## Machine integers -/

/-- The number of values of a Go `uint64`. -/
def uint64Size : Nat := 18446744073709551616

/-- The Go conversion `int64(x)` of a `uint64` value: two's complement reinterpretation. -/
def toInt64 (x : Nat) : Int :=
  if x % uint64Size < 9223372036854775808 then ((x % uint64Size : Nat) : Int)
  else ((x % uint64Size : Nat) : Int) - 18446744073709551616

/-! ## helpers -/

/-- Modelled from the spec: `helpers.NoahToQNoah` is not among the sources; the spec gives
`to_smallest(n) = n * 10^18`. -/
def NoahToQNoah (n : Int) : Int := n * 1000000000000000000

/-! ## core/rewards/rewards.go -/

def lastBlock : Nat := 43702611
def firstReward : Int := 333
def lastReward : Int := 68

/-- The package-level variables `startHeight` and `BeforeGenesis`. -/
structure RewardState where
  startHeight : Nat
  BeforeGenesis : Int
  deriving DecidableEq, Repr

/-- The values the package variables are initialised with. -/
def RewardState.init : RewardState := ⟨0, 0⟩

/-- The function `GetRewardForBlock`; `blockHeight += startHeight` is a `uint64` addition. -/
def GetRewardForBlock (st : RewardState) (blockHeight : Nat) : Int :=
  let blockHeight := (blockHeight + st.startHeight) % uint64Size
  if blockHeight > lastBlock then 0
  else if blockHeight = lastBlock then NoahToQNoah lastReward
  else
    let reward : Int := firstReward - toInt64 (blockHeight / 200000)
    if reward ≤ 0 then NoahToQNoah 1
    else NoahToQNoah reward

/-- The loop of `SetStartHeight`: `for i := uint64(1); i <= sHeight; i++`, one iteration per
unit of fuel; `none` when the fuel runs out before the loop condition fails. -/
def SetStartHeight.loop (sHeight : Nat) : Nat → Nat → RewardState → Option RewardState
  | 0, _, _ => none
  | fuel + 1, i, st =>
    if i ≤ sHeight then
      SetStartHeight.loop sHeight fuel ((i + 1) % uint64Size)
        { st with BeforeGenesis := st.BeforeGenesis + GetRewardForBlock st i }
    else some st

/-- The function `SetStartHeight`: the loop, then `startHeight = sHeight`. -/
def SetStartHeight (fuel : Nat) (sHeight : Nat) (st : RewardState) : Option RewardState :=
  (SetStartHeight.loop sHeight fuel 1 st).map fun st' => { st' with startHeight := sHeight }

/-! ## Byte strings, addresses, coin symbols -/

/-- A Go `[]byte` or `string`: the list of its bytes. -/
abbrev Bytes := List Nat

/-- The type `types.Address`: 20 bytes. -/
abbrev Address := List Nat

/-- The type `types.CoinSymbol`: 10 bytes. -/
abbrev CoinSymbol := List Nat

/-- One lower-case hexadecimal digit, as its ASCII code. -/
def hexDigit (n : Nat) : Nat := if n < 10 then 48 + n else 87 + n

/-- The function `hex.EncodeToString` of the Go standard library. -/
def hexEncode : Bytes → Bytes
  | [] => []
  | b :: rest => hexDigit (b / 16 % 16) :: hexDigit (b % 16) :: hexEncode rest

/-! ## regexp -/

/-- A regular expression of the shape `^[r1r2...]{min,max}$`, each `r` a byte range. -/
structure Pattern where
  classRanges : List (Nat × Nat)
  minRep : Nat
  maxRep : Nat
  deriving DecidableEq, Repr

/-- Whether a byte belongs to the character class of the pattern. -/
def Pattern.inClass (p : Pattern) (b : Nat) : Bool :=
  p.classRanges.any fun r => decide (r.1 ≤ b ∧ b ≤ r.2)

/-- Matching of the bounded repetition against the rest of the text, `n` repetitions having
been consumed; the text must end where the repetition ends (`$`). -/
def Pattern.matchFrom (p : Pattern) : Nat → Bytes → Bool
  | n, [] => decide (p.minRep ≤ n ∧ n ≤ p.maxRep)
  | n, b :: rest => p.inClass b && decide (n < p.maxRep) && p.matchFrom (n + 1) rest

/-- The function `regexp.MatchString` of the Go standard library, for such a pattern. -/
def MatchString (p : Pattern) (s : Bytes) : Bool := p.matchFrom 0 s

/-! ## Constants and functions of the repository that `create_coin.go` uses -/

/-- The constants and pure functions of other packages that `create_coin.go` refers to and
whose definitions are not among the sources; they are parameters of the embedding. -/
structure Env where
  /-- The value of `types.GetBaseCoin()`. -/
  baseCoin : CoinSymbol
  /-- The method `CoinSymbol.String`. -/
  symbolString : CoinSymbol → Bytes
  /-- The variable `MaxCoinSupply`. -/
  MaxCoinSupply : Int
  /-- The variable `CommissionMultiplier`. -/
  CommissionMultiplier : Int
  /-- The function `formula.CalculateSaleAmount`. -/
  CalculateSaleAmount : Int → Int → Nat → Int → Int
  /-- The constant `TypeCreateCoin`, a byte. -/
  TypeCreateCoin : Nat

/-- The method `CoinSymbol.IsBaseCoin`. -/
def IsBaseCoin (env : Env) (c : CoinSymbol) : Bool := decide (c = env.baseCoin)

/-- The response codes of package `code` that `create_coin.go` uses. `OK` is the code 0; the
others are distinct non-zero codes. -/
inductive Code where
  | OK
  | DecodeError
  | InvalidCoinName
  | InvalidCoinSymbol
  | CoinAlreadyExists
  | WrongCrr
  | WrongCoinSupply
  | CoinReserveNotSufficient
  | InsufficientFunds
  deriving DecidableEq, Repr

/-- The log line of a response: the format of the `fmt.Sprintf` call and its arguments. -/
inductive Log where
  | empty
  | incorrectTxData
  | coinNameInvalid (maxBytes : Nat)
  | invalidCoinSymbol (pattern : Pattern)
  | coinAlreadyExists
  | wrongCrr
  | coinSupplyBounds (min max : Int)
  | coinReserveMin (min : Int)
  | gasCoinReserveNotSufficient (has : Int) (base : CoinSymbol) (required : Int)
    (base2 : CoinSymbol)
  | insufficientFunds (sender : Address) (wanted : Int) (coin : CoinSymbol)
  deriving DecidableEq, Repr

/-- The type `common.KVPair`. -/
structure KVPair where
  Key : String
  Value : Bytes
  deriving DecidableEq, Repr

/-- The type `Response`. -/
structure Response where
  Code : Code
  Log : Log := Log.empty
  Tags : List KVPair := []
  GasUsed : Int := 0
  GasWanted : Int := 0
  deriving DecidableEq, Repr

/-- The fields of `Transaction` that `create_coin.go` reads. `sender` is the result of
`tx.Sender()` and `gas` the result of `tx.Gas()`. `Nonce` is a `uint64`; `GasPrice` is a
`uint32`, a value below `2 ^ 32`. -/
structure Transaction where
  Nonce : Nat
  GasPrice : Nat
  GasCoin : CoinSymbol
  sender : Address
  gas : Int

/-! ## State view -/

/-- Modelled from the spec: the coin record of the state store (package `state` is not among
the sources): name, volume, constant reserve ratio and reserve. -/
structure Coin where
  Name : Bytes
  Volume : Int
  Crr : Nat
  ReserveBalance : Int
  deriving DecidableEq, Repr

/-- Modelled from the spec: the state view `state.StateDB` (package `state` is not among the
sources): balances per address and coin, coin records per symbol, nonces per address. -/
structure StateDB where
  balances : Address → CoinSymbol → Int
  coins : CoinSymbol → Option Coin
  nonces : Address → Nat

/-- Modelled from the spec: `get_balance(addr, coin)`, 0 if absent. -/
def StateDB.GetBalance (s : StateDB) (addr : Address) (coin : CoinSymbol) : Int :=
  s.balances addr coin

/-- Modelled from the spec: `add_balance(addr, coin, amt)`. -/
def StateDB.AddBalance (s : StateDB) (addr : Address) (coin : CoinSymbol) (amt : Int) :
    StateDB :=
  { s with balances := fun a c =>
      if a = addr ∧ c = coin then s.balances a c + amt else s.balances a c }

/-- Modelled from the spec: `sub_balance(addr, coin, amt)`; an underflow is a fatal abort. -/
def StateDB.SubBalance (s : StateDB) (addr : Address) (coin : CoinSymbol) (amt : Int) :
    Option StateDB :=
  if s.balances addr coin < amt then none
  else some { s with balances := fun a c =>
      if a = addr ∧ c = coin then s.balances a c - amt else s.balances a c }

/-- Modelled from the spec: `get_nonce(addr)`. -/
def StateDB.GetNonce (s : StateDB) (addr : Address) : Nat := s.nonces addr

/-- Modelled from the spec: `set_nonce(addr, n)`. -/
def StateDB.SetNonce (s : StateDB) (addr : Address) (n : Nat) : StateDB :=
  { s with nonces := fun a => if a = addr then n else s.nonces a }

/-- Modelled from the spec: `get_coin(symbol)`, the record of the coin if there is one. The
base coin has no record. -/
def StateDB.GetStateCoin (s : StateDB) (symbol : CoinSymbol) : Option Coin := s.coins symbol

/-- Modelled from the spec: `coin_exists(symbol)`. The base coin is the distinguished coin
of the chain and exists although it has no record. -/
def StateDB.CoinExists (env : Env) (s : StateDB) (symbol : CoinSymbol) : Bool :=
  IsBaseCoin env symbol || (s.coins symbol).isSome

/-- Modelled from the spec: `create_coin(symbol, name, vol, crr, reserve)`. -/
def StateDB.CreateCoin (s : StateDB) (symbol : CoinSymbol) (name : Bytes) (volume : Int)
    (crr : Nat) (reserve : Int) : StateDB :=
  { s with coins := fun c =>
      if c = symbol then some ⟨name, volume, crr, reserve⟩ else s.coins c }

/-- Modelled from the spec: `sub_coin_reserve(symbol, amt)`; nothing to change for a symbol
without a record (the base coin). -/
def StateDB.SubCoinReserve (s : StateDB) (symbol : CoinSymbol) (amt : Int) : StateDB :=
  match s.coins symbol with
  | none => s
  | some coin =>
    { s with coins := fun c =>
        if c = symbol then some { coin with ReserveBalance := coin.ReserveBalance - amt }
        else s.coins c }

/-- Modelled from the spec: `sub_coin_volume(symbol, amt)`; nothing to change for a symbol
without a record (the base coin). -/
def StateDB.SubCoinVolume (s : StateDB) (symbol : CoinSymbol) (amt : Int) : StateDB :=
  match s.coins symbol with
  | none => s
  | some coin =>
    { s with coins := fun c =>
        if c = symbol then some { coin with Volume := coin.Volume - amt }
        else s.coins c }

/-! ## core/transaction/create_coin.go -/

def maxCoinNameBytes : Nat := 64

/-- The constant `allowedCoinSymbols = "^[A-Z0-9]{3,10}$"`, parsed. -/
def allowedCoinSymbols : Pattern := ⟨[(65, 90), (48, 57)], 3, 10⟩

def minCoinSupply : Int := NoahToQNoah 1
def minCoinReserve : Int := NoahToQNoah 1000

/-- The type `CreateCoinData`. -/
structure CreateCoinData where
  Name : Bytes
  Symbol : CoinSymbol
  InitialAmount : Option Int
  InitialReserve : Option Int
  ConstantReserveRatio : Nat

/-- The method `CreateCoinData.BasicCheck`; `none` is the Go result `nil`. -/
def CreateCoinData.BasicCheck (env : Env) (data : CreateCoinData) (context : StateDB) :
    Option Response :=
  match data.InitialReserve, data.InitialAmount with
  | some initialReserve, some initialAmount =>
    if data.Name.length > maxCoinNameBytes then
      some { Code := Code.InvalidCoinName, Log := Log.coinNameInvalid maxCoinNameBytes }
    else if !MatchString allowedCoinSymbols (env.symbolString data.Symbol) then
      some { Code := Code.InvalidCoinSymbol, Log := Log.invalidCoinSymbol allowedCoinSymbols }
    else if context.CoinExists env data.Symbol then
      some { Code := Code.CoinAlreadyExists, Log := Log.coinAlreadyExists }
    else if data.ConstantReserveRatio < 10 ∨ data.ConstantReserveRatio > 100 then
      some { Code := Code.WrongCrr, Log := Log.wrongCrr }
    else if initialAmount < minCoinSupply ∨ initialAmount > env.MaxCoinSupply then
      some { Code := Code.WrongCoinSupply,
             Log := Log.coinSupplyBounds minCoinSupply env.MaxCoinSupply }
    else if initialReserve < minCoinReserve then
      some { Code := Code.WrongCoinSupply, Log := Log.coinReserveMin minCoinReserve }
    else none
  | _, _ => some { Code := Code.DecodeError, Log := Log.incorrectTxData }

/-- The method `CreateCoinData.Gas`. -/
def CreateCoinData.Gas (env : Env) (data : CreateCoinData) : Int :=
  match (env.symbolString data.Symbol).length with
  | 3 => 1000000000
  | 4 => 100000000
  | 5 => 10000000
  | 6 => 1000000
  | _ => 100000

/-- The tags of a successful response. -/
def CreateCoinData.tags (env : Env) (data : CreateCoinData) (sender : Address) :
    List KVPair :=
  [ ⟨"tx.type", hexEncode [env.TypeCreateCoin % 256]⟩,
    ⟨"tx.from", hexEncode sender⟩,
    ⟨"tx.coin", env.symbolString data.Symbol⟩ ]

/-- The method `CreateCoinData.Run`. The result is the response, the state view and the
reward pool after the call; `none` is a panic: the dereference of a `nil` coin or amount, or
the abort of an underflowing `SubBalance`. -/
def CreateCoinData.Run (env : Env) (data : CreateCoinData) (tx : Transaction)
    (context : StateDB) (isCheck : Bool) (rewardPool : Int) :
    Option (Response × StateDB × Int) :=
  let sender := tx.sender
  match data.BasicCheck env context with
  | some response => some (response, context, rewardPool)
  | none =>
    let commissionInBaseCoin : Int :=
      toInt64 tx.GasPrice * data.Gas env * env.CommissionMultiplier
    let gasCoinStep : Option (Response ⊕ Int) :=
      if tx.GasCoin ≠ env.baseCoin then
        match context.GetStateCoin tx.GasCoin with
        | none => none
        | some coin =>
          if coin.ReserveBalance < commissionInBaseCoin then
            some (Sum.inl { Code := Code.CoinReserveNotSufficient,
                            Log := Log.gasCoinReserveNotSufficient coin.ReserveBalance
                              env.baseCoin commissionInBaseCoin env.baseCoin })
          else
            some (Sum.inr (env.CalculateSaleAmount coin.Volume coin.ReserveBalance coin.Crr
              commissionInBaseCoin))
      else some (Sum.inr commissionInBaseCoin)
    match gasCoinStep with
    | none => none
    | some (Sum.inl response) => some (response, context, rewardPool)
    | some (Sum.inr commission) =>
      if context.GetBalance sender tx.GasCoin < commission then
        some ({ Code := Code.InsufficientFunds,
                Log := Log.insufficientFunds sender commission tx.GasCoin },
              context, rewardPool)
      else
        match data.InitialReserve with
        | none => none
        | some initialReserve =>
          if context.GetBalance sender env.baseCoin < initialReserve then
            some ({ Code := Code.InsufficientFunds,
                    Log := Log.insufficientFunds sender initialReserve env.baseCoin },
                  context, rewardPool)
          else if IsBaseCoin env tx.GasCoin ∧
              context.GetBalance sender env.baseCoin < 0 + initialReserve + commission then
            some ({ Code := Code.InsufficientFunds,
                    Log := Log.insufficientFunds sender (0 + initialReserve + commission)
                      tx.GasCoin },
                  context, rewardPool)
          else
            let response : Response :=
              { Code := Code.OK, Tags := data.tags env sender,
                GasUsed := tx.gas, GasWanted := tx.gas }
            if isCheck then some (response, context, rewardPool)
            else
              let rewardPool := rewardPool + commissionInBaseCoin
              let context := context.SubCoinReserve tx.GasCoin commissionInBaseCoin
              let context := context.SubCoinVolume tx.GasCoin commission
              match context.SubBalance sender env.baseCoin initialReserve with
              | none => none
              | some context =>
                match context.SubBalance sender tx.GasCoin commission with
                | none => none
                | some context =>
                  match data.InitialAmount with
                  | none => none
                  | some initialAmount =>
                    let context := context.CreateCoin data.Symbol data.Name initialAmount
                      data.ConstantReserveRatio initialReserve
                    let context := context.AddBalance sender data.Symbol initialAmount
                    let context := context.SetNonce sender tx.Nonce
                    some (response, context, rewardPool)

/-- The commission in base coin as `Run` computes it: the gas price goes through `int64`. -/
def commissionInBaseCoin (env : Env) (data : CreateCoinData) (tx : Transaction) : Int :=
  toInt64 tx.GasPrice * data.Gas env * env.CommissionMultiplier

/-! ## The scenario of `TestCreateCoinTx` -/

/-- The symbol without its zero padding. -/
def trimZeros (c : CoinSymbol) : Bytes :=
  ((c.reverse.dropWhile fun b => b == 0).reverse).dropWhile fun b => b == 0

/-- An instance of the parameters for the examples: base coin `NOAH`, the commission
multiplier `10 ^ 15` with which the balance expected by `TestCreateCoinTx` results, the
constant-price curve for the sale amount. -/
def testEnv : Env where
  baseCoin := [78, 79, 65, 72, 0, 0, 0, 0, 0, 0]
  symbolString := trimZeros
  MaxCoinSupply := 1000000000000000000000000000000000
  CommissionMultiplier := 1000000000000000
  CalculateSaleAmount := fun volume reserve _ wanted =>
    if reserve = 0 then 0 else volume * wanted / reserve
  TypeCreateCoin := 5

/-- The sender of the test transaction. -/
def testAddr : Address := [1, 2, 3, 4, 5, 6, 7, 8, 9, 10, 11, 12, 13, 14, 15, 16, 17, 18, 19, 20]

/-- The state of the test: the sender holds 1000000 base coins; no coin records. -/
def testState : StateDB where
  balances := fun a c =>
    if a = testAddr ∧ c = testEnv.baseCoin then NoahToQNoah 1000000 else 0
  coins := fun _ => none
  nonces := fun _ => 0

/-- The symbol `ABCDEF`. -/
def testSymbol : CoinSymbol := [65, 66, 67, 68, 69, 70, 0, 0, 0, 0]

/-- The payload of the test: `My Test Coin`, `ABCDEF`, amount 100, reserve 1000, crr 50. -/
def testData : CreateCoinData where
  Name := [77, 121, 32, 84, 101, 115, 116, 32, 67, 111, 105, 110]
  Symbol := testSymbol
  InitialAmount := some (NoahToQNoah 100)
  InitialReserve := some (NoahToQNoah 1000)
  ConstantReserveRatio := 50

/-- The transaction of the test: nonce 1, gas price 1, gas coin the base coin. -/
def testTx : Transaction where
  Nonce := 1
  GasPrice := 1
  GasCoin := testEnv.baseCoin
  sender := testAddr
  gas := 1000000

/-- The test transaction with the largest gas price of a `uint32`, `2 ^ 32 - 1`. -/
def maxGasPriceTx : Transaction := { testTx with GasPrice := 4294967295 }

/-! ## Base coin held in the state -/

/-- The reserve of a coin in the state view; 0 for a symbol without a record. -/
def StateDB.reserveOf (s : StateDB) (symbol : CoinSymbol) : Int :=
  match s.coins symbol with
  | none => 0
  | some coin => coin.ReserveBalance

/-- The base coin in the balances of the accounts `addrs`, in the reserves of the coins
`symbols` and in the reward pool. -/
def totalBase (env : Env) (s : StateDB) (addrs : Finset Address) (symbols : Finset CoinSymbol)
    (rewardPool : Int) : Int :=
  (∑ addr in addrs, s.GetBalance addr env.baseCoin) + (∑ c in symbols, s.reserveOf c)
    + rewardPool

/-! ## A scenario with a custom gas coin -/

/-- The symbol `GASCOIN`. -/
def gasSymbol : CoinSymbol := [71, 65, 83, 67, 79, 73, 78, 0, 0, 0]

/-- A state with the coin `GASCOIN`: volume and reserve 1000 coins, crr 100; the sender of
the test holds the whole volume, and 1000000 base coins. -/
def gasState : StateDB where
  balances := fun a c =>
    if a = testAddr ∧ c = testEnv.baseCoin then NoahToQNoah 1000000
    else if a = testAddr ∧ c = gasSymbol then NoahToQNoah 1000
    else 0
  coins := fun c =>
    if c = gasSymbol then
      some { Name := [71, 97, 115], Volume := NoahToQNoah 1000, Crr := 100,
             ReserveBalance := NoahToQNoah 1000 }
    else none
  nonces := fun _ => 0

/-- The test transaction paying its commission in `GASCOIN`. -/
def gasTx : Transaction := { testTx with GasCoin := gasSymbol }

/-! ## DeclareCandidacy -/

/-- Modelled from the spec: the status of a candidate, `Offline` or `Online`; package `state`
and `declare_candidacy.go` are not among the sources. -/
inductive CandidateStatus where
  | Offline
  | Online
  deriving DecidableEq, Repr

/-- Modelled from the spec: the candidate record, keyed by its public key: owner address,
reward address, commission, initial coin and stake, total stake in base coin, status. -/
structure Candidate where
  PubKey : Bytes
  OwnerAddress : Address
  RewardAddress : Address
  Commission : Nat
  Coin : CoinSymbol
  Stake : Int
  TotalNoahStake : Int
  Status : CandidateStatus
  deriving DecidableEq, Repr

/-- Modelled from the spec: the state view with its candidate records. -/
structure CandidateState where
  db : StateDB
  candidates : Bytes → Option Candidate

/-- Modelled from the spec: `get_candidate(pubkey)`. -/
def CandidateState.GetStateCandidate (s : CandidateState) (pubkey : Bytes) :
    Option Candidate :=
  s.candidates pubkey

/-- Modelled from the spec: `create_candidate(owner, reward, pubkey, commission, stake, coin,
total_base_stake)`; the status of a new candidate is `Offline`. -/
def CandidateState.CreateCandidate (s : CandidateState) (owner reward : Address)
    (pubkey : Bytes) (commission : Nat) (stake : Int) (coin : CoinSymbol)
    (totalBaseStake : Int) : CandidateState :=
  { s with candidates := fun k =>
      if k = pubkey then
        some { PubKey := pubkey, OwnerAddress := owner, RewardAddress := reward,
               Commission := commission, Coin := coin, Stake := stake,
               TotalNoahStake := totalBaseStake, Status := CandidateStatus.Offline }
      else s.candidates k }

/-- Modelled from the spec: the payload of DeclareCandidacy, `{address, pubkey, commission,
coin, stake}`, with the field names of `TestDeclareCandidacyTx`. -/
structure DeclareCandidacyData where
  PubKey : Bytes
  Commission : Nat
  Coin : CoinSymbol
  Stake : Int
  Address : Address

/-- Modelled from the spec: the codes of a DeclareCandidacy run. The spec names `OK` and, in
the common pipeline, `CoinReserveNotSufficient` and `InsufficientFunds`; a failed basic
check has a non-zero code that the spec does not name. -/
inductive CandidacyCode where
  | OK
  | BasicCheckFailed
  | CoinReserveNotSufficient
  | InsufficientFunds
  deriving DecidableEq, Repr

/-- Modelled from the spec: the gas of DeclareCandidacy, 10000. -/
def DeclareCandidacyData.Gas : Int := 10000

/-- Modelled from the spec: the basic checks of DeclareCandidacy: no candidate with the
public key exists, `commission ≤ 100`, `stake ≥ 0`, the sender has `stake` of `coin`. -/
def DeclareCandidacyData.BasicCheck (data : DeclareCandidacyData) (tx : Transaction)
    (context : CandidateState) : Bool :=
  (context.GetStateCandidate data.PubKey).isNone && decide (data.Commission ≤ 100) &&
    decide (0 ≤ data.Stake) &&
    decide (data.Stake ≤ context.db.GetBalance tx.sender data.Coin)

/-- Modelled from the spec: the run of DeclareCandidacy by the common execution pipeline
(section 4.4, steps 1 to 9) with the mutations of the kind: the code, the state view and
the reward pool after the call, without the tags and the gas of the response. `none` where
the spec gives no response: a gas coin without record, or a debit that underflows. -/
def DeclareCandidacyData.Run (env : Env) (data : DeclareCandidacyData) (tx : Transaction)
    (context : CandidateState) (isCheck : Bool) (rewardPool : Int) :
    Option (CandidacyCode × CandidateState × Int) :=
  if !data.BasicCheck tx context then
    some (CandidacyCode.BasicCheckFailed, context, rewardPool)
  else
    let commissionBase : Int :=
      (tx.GasPrice : Int) * DeclareCandidacyData.Gas * env.CommissionMultiplier
    let gasCoinStep : Option (CandidacyCode ⊕ Int) :=
      if tx.GasCoin ≠ env.baseCoin then
        match context.db.GetStateCoin tx.GasCoin with
        | none => none
        | some coin =>
          if coin.ReserveBalance < commissionBase then
            some (Sum.inl CandidacyCode.CoinReserveNotSufficient)
          else
            some (Sum.inr (env.CalculateSaleAmount coin.Volume coin.ReserveBalance coin.Crr
              commissionBase))
      else some (Sum.inr commissionBase)
    match gasCoinStep with
    | none => none
    | some (Sum.inl code) => some (code, context, rewardPool)
    | some (Sum.inr commission) =>
      if context.db.GetBalance tx.sender tx.GasCoin < commission then
        some (CandidacyCode.InsufficientFunds, context, rewardPool)
      else if isCheck then some (CandidacyCode.OK, context, rewardPool)
      else
        let rewardPool := rewardPool + commissionBase
        let db := context.db.SubCoinReserve tx.GasCoin commissionBase
        let db := db.SubCoinVolume tx.GasCoin commission
        match db.SubBalance tx.sender tx.GasCoin commission with
        | none => none
        | some db =>
          match db.SubBalance tx.sender data.Coin data.Stake with
          | none => none
          | some db =>
            let context := { context with db := db }
            let context := context.CreateCandidate tx.sender data.Address data.PubKey
              data.Commission data.Stake data.Coin 0
            let context := { context with db := context.db.SetNonce tx.sender tx.Nonce }
            some (CandidacyCode.OK, context, rewardPool)

/-- The public key of the candidate of the example, 32 bytes. -/
def testPubKey : Bytes := List.replicate 32 7

/-- The payload of `TestDeclareCandidacyTx`: reward address the sender, commission 10,
stake 100 base coins. -/
def testCandidacy : DeclareCandidacyData where
  PubKey := testPubKey
  Commission := 10
  Coin := testEnv.baseCoin
  Stake := NoahToQNoah 100
  Address := testAddr

/-- The state of `TestDeclareCandidacyTx`: the state of the test, without candidates. -/
def testCandidateState : CandidateState where
  db := testState
  candidates := fun _ => none

/-! ## Reward schedule: lemmas -/

theorem toInt64_of_lt {x : Nat} (h : x < 9223372036854775808) : toInt64 x = (x : Int) := by
  unfold toInt64 uint64Size
  have h' : x % 18446744073709551616 = x := Nat.mod_eq_of_lt (by omega)
  rw [h']
  simp [h]

/-- The reward below `lastBlock`, with the conversions resolved. -/
theorem GetRewardForBlock_below (st : RewardState) (h : Nat)
    (hH : h + st.startHeight < lastBlock) :
    GetRewardForBlock st h
      = NoahToQNoah (333 - (((h + st.startHeight) / 200000 : Nat) : Int)) := by
  unfold lastBlock at hH
  have hmod : (h + st.startHeight) % uint64Size = h + st.startHeight :=
    Nat.mod_eq_of_lt (by unfold uint64Size; omega)
  have hdiv : (h + st.startHeight) / 200000 ≤ 218 := by omega
  have hc : toInt64 ((h + st.startHeight) / 200000)
      = (((h + st.startHeight) / 200000 : Nat) : Int) := toInt64_of_lt (by omega)
  unfold GetRewardForBlock
  simp only [hmod, hc, lastBlock, firstReward]
  rw [if_neg (by omega), if_neg (by omega), if_neg (by omega)]

theorem NoahToQNoah_mono {a b : Int} (h : a ≤ b) : NoahToQNoah a ≤ NoahToQNoah b := by
  unfold NoahToQNoah
  omega

/-- The reward at `lastBlock`. -/
theorem GetRewardForBlock_last (st : RewardState) (h : Nat)
    (hH : h + st.startHeight = lastBlock) :
    GetRewardForBlock st h = NoahToQNoah 68 := by
  have hmod : (h + st.startHeight) % uint64Size = lastBlock := by
    rw [hH]; decide
  unfold GetRewardForBlock
  simp only [hmod, lastReward]
  rw [if_neg (by omega)]
  simp

/-- The reward above `lastBlock`. -/
theorem GetRewardForBlock_above (st : RewardState) (h : Nat)
    (hov : h + st.startHeight < uint64Size) (hH : lastBlock < h + st.startHeight) :
    GetRewardForBlock st h = 0 := by
  have hmod : (h + st.startHeight) % uint64Size = h + st.startHeight :=
    Nat.mod_eq_of_lt hov
  unfold GetRewardForBlock
  simp only [hmod]
  rw [if_pos hH]

/-- The reward depends on the reward state through `startHeight` only. -/
theorem GetRewardForBlock_startHeight (st st' : RewardState)
    (h : st'.startHeight = st.startHeight) (i : Nat) :
    GetRewardForBlock st' i = GetRewardForBlock st i := by
  unfold GetRewardForBlock
  rw [h]

/-! ## Reward schedule: the claims -/

/-- C1: for a query height `h` and start height `s` with `h + s` below `2 ^ 64`, and
`H = h + s`, `GetRewardForBlock` returns 0 when `H > 43702611`, `68 * 10 ^ 18` when
`H = 43702611`, and otherwise `r * 10 ^ 18` with `r = 333 - H / 200000` when `r > 0` and
`1 * 10 ^ 18` when `r ≤ 0`. -/
theorem GetRewardForBlock_spec (st : RewardState) (h : Nat)
    (hov : h + st.startHeight < 2 ^ 64) :
    (43702611 < h + st.startHeight → GetRewardForBlock st h = 0) ∧
    (h + st.startHeight = 43702611 → GetRewardForBlock st h = 68 * 10 ^ 18) ∧
    (h + st.startHeight < 43702611 →
      ((0 : Int) < 333 - (((h + st.startHeight) / 200000 : Nat) : Int) →
        GetRewardForBlock st h
          = (333 - (((h + st.startHeight) / 200000 : Nat) : Int)) * 10 ^ 18) ∧
      (333 - (((h + st.startHeight) / 200000 : Nat) : Int) ≤ (0 : Int) →
        GetRewardForBlock st h = 1 * 10 ^ 18)) := by
  refine ⟨fun hgt => ?_, fun heq => ?_, fun hlt => ⟨fun _ => ?_, fun hr => ?_⟩⟩
  · exact GetRewardForBlock_above st h (by unfold uint64Size; omega) hgt
  · rw [GetRewardForBlock_last st h heq]
    unfold NoahToQNoah
    norm_num
  · rw [GetRewardForBlock_below st h hlt]
    unfold NoahToQNoah
    norm_num
  · exfalso
    omega

/-- The reward of height 5 after start height 1000000: `328 * 10 ^ 18`. -/
theorem GetRewardForBlock_spec_witness :
    GetRewardForBlock ⟨1000000, 0⟩ 5 = (333 - (((5 + 1000000) / 200000 : Nat) : Int)) * 10 ^ 18
      ∧ GetRewardForBlock ⟨1000000, 0⟩ 5 = 328000000000000000000 :=
  ⟨((GetRewardForBlock_spec ⟨1000000, 0⟩ 5 (by decide)).2.2 (by decide)).1 (by decide),
    by decide⟩

/-- C2: for a fixed start height, `GetRewardForBlock` is non-increasing in the height up to
and including `lastBlock`: `h1 ≤ h2` and `h2 + startHeight ≤ 43702611` give
`GetRewardForBlock h2 ≤ GetRewardForBlock h1`. -/
theorem GetRewardForBlock_antitone (st : RewardState) (h1 h2 : Nat) (hle : h1 ≤ h2)
    (hlast : h2 + st.startHeight ≤ 43702611) :
    GetRewardForBlock st h2 ≤ GetRewardForBlock st h1 := by
  have h1lt : h1 = h2 ∨ h1 + st.startHeight < lastBlock := by
    unfold lastBlock; omega
  rcases h1lt with heq | h1lt
  · rw [heq]
  · rw [GetRewardForBlock_below st h1 h1lt]
    unfold lastBlock at h1lt
    rcases Nat.lt_or_ge (h2 + st.startHeight) lastBlock with h2lt | h2ge
    · rw [GetRewardForBlock_below st h2 h2lt]
      apply NoahToQNoah_mono
      have : (h1 + st.startHeight) / 200000 ≤ (h2 + st.startHeight) / 200000 :=
        Nat.div_le_div_right (by omega)
      omega
    · have h2eq : h2 + st.startHeight = lastBlock := by
        unfold lastBlock at h2ge ⊢; omega
      rw [GetRewardForBlock_last st h2 h2eq]
      apply NoahToQNoah_mono
      omega

/-- The step from `lastBlock - 1` to `lastBlock`: from `115 * 10 ^ 18` to `68 * 10 ^ 18`. -/
theorem GetRewardForBlock_antitone_witness :
    GetRewardForBlock ⟨0, 0⟩ 43702611 ≤ GetRewardForBlock ⟨0, 0⟩ 43702610 ∧
    GetRewardForBlock ⟨0, 0⟩ 43702611 = 68000000000000000000 ∧
    GetRewardForBlock ⟨0, 0⟩ 43702610 = 115000000000000000000 :=
  ⟨GetRewardForBlock_antitone ⟨0, 0⟩ 43702610 43702611 (by decide) (by decide),
    by decide, by decide⟩

/-- The loop of `SetStartHeight` from counter `i` with enough fuel, when `sHeight + 1` is
still a `uint64`: it ends and has added the rewards of the heights `i .. sHeight`. -/
theorem SetStartHeight_loop_sum (s : Nat) (hs : s + 1 < uint64Size) :
    ∀ (n i fuel : Nat) (st : RewardState), i + n = s + 1 → n < fuel →
      SetStartHeight.loop s fuel i st
        = some ⟨st.startHeight,
            st.BeforeGenesis + ∑ j in Finset.Ico i (s + 1), GetRewardForBlock st j⟩ := by
  intro n
  induction n with
  | zero =>
    intro i fuel st hi hf
    obtain ⟨f, rfl⟩ : ∃ f, fuel = f + 1 := ⟨fuel - 1, by omega⟩
    have hi' : i = s + 1 := by omega
    subst hi'
    simp [SetStartHeight.loop]
  | succ n ih =>
    intro i fuel st hi hf
    obtain ⟨f, rfl⟩ : ∃ f, fuel = f + 1 := ⟨fuel - 1, by omega⟩
    have hle : i ≤ s := by omega
    have hmod : (i + 1) % uint64Size = i + 1 := Nat.mod_eq_of_lt (by omega)
    rw [SetStartHeight.loop, if_pos hle, hmod, ih (i + 1) f _ (by omega) (by omega)]
    have hsum : ∑ j in Finset.Ico i (s + 1), GetRewardForBlock st j
        = GetRewardForBlock st i + ∑ j in Finset.Ico (i + 1) (s + 1), GetRewardForBlock st j :=
      Finset.sum_eq_sum_Ico_succ_bot (by omega) _
    have hcongr : ∀ j, GetRewardForBlock
        { st with BeforeGenesis := st.BeforeGenesis + GetRewardForBlock st i } j
          = GetRewardForBlock st j :=
      fun j => GetRewardForBlock_startHeight st _ rfl j
    simp only [hcongr, hsum]
    congr 2
    ring

/-- For every start height `s` with `s + 1` still a `uint64`, `SetStartHeight s` from the
initial reward state returns with any fuel above `s`, and leaves `startHeight = s` and
`BeforeGenesis` the sum of the rewards of the heights `1 .. s`. -/
theorem SetStartHeight_sum (s fuel : Nat) (hs : s + 1 < 2 ^ 64) (hf : s < fuel) :
    SetStartHeight fuel s RewardState.init
      = some ⟨s, ∑ j in Finset.Icc 1 s, GetRewardForBlock RewardState.init j⟩ := by
  unfold SetStartHeight
  rw [SetStartHeight_loop_sum s (by unfold uint64Size; omega) s 1 fuel RewardState.init
    (by omega) hf]
  simp [RewardState.init, Nat.Ico_succ_right]

/-- `SetStartHeight 3` with fuel 4. -/
theorem SetStartHeight_sum_witness :
    SetStartHeight 4 3 RewardState.init
      = some ⟨3, ∑ j in Finset.Icc 1 3, GetRewardForBlock RewardState.init j⟩ :=
  SetStartHeight_sum 3 4 (by decide) (by decide)

/-- With `sHeight` the largest `uint64`, the loop condition `i <= sHeight` never fails. -/
theorem SetStartHeight_loop_max (fuel : Nat) :
    ∀ (i : Nat) (st : RewardState),
      SetStartHeight.loop 18446744073709551615 fuel i st = none ∨ 18446744073709551615 < i := by
  induction fuel with
  | zero => intro i st; exact Or.inl rfl
  | succ f ih =>
    intro i st
    rcases Nat.lt_or_ge 18446744073709551615 i with hi | hi
    · exact Or.inr hi
    · left
      rw [SetStartHeight.loop, if_pos hi]
      rcases ih ((i + 1) % uint64Size)
        { st with BeforeGenesis := st.BeforeGenesis + GetRewardForBlock st i } with h | h
      · exact h
      · exfalso
        have : (i + 1) % uint64Size < uint64Size := Nat.mod_lt _ (by decide)
        unfold uint64Size at this h
        omega

/-- C3 at `sHeight = 2 ^ 64 - 1`: the counter of the loop wraps to 0 after the largest
`uint64`, so `SetStartHeight` returns with no amount of fuel: it never sets `startHeight`. -/
theorem SetStartHeight_max_never_returns (fuel : Nat) :
    SetStartHeight fuel 18446744073709551615 RewardState.init = none := by
  unfold SetStartHeight
  rcases SetStartHeight_loop_max fuel 1 RewardState.init with h | h
  · rw [h]; rfl
  · omega

/-! ## CreateCoin: lemmas -/

/-- The matcher accepts exactly the texts whose bytes are all in the class and whose length,
added to the repetitions consumed, lies within the bounds. -/
theorem Pattern.matchFrom_iff (p : Pattern) (s : Bytes) :
    ∀ n : Nat, p.matchFrom n s = true ↔
      (p.minRep ≤ n + s.length ∧ n + s.length ≤ p.maxRep ∧ ∀ b ∈ s, p.inClass b = true) := by
  induction s with
  | nil => intro n; simp [Pattern.matchFrom]
  | cons b rest ih =>
    intro n
    simp only [Pattern.matchFrom, Bool.and_eq_true, decide_eq_true_eq, ih (n + 1),
      List.length_cons, List.mem_cons, forall_eq_or_imp]
    constructor
    · rintro ⟨⟨hb, _⟩, h1, h2, h3⟩
      exact ⟨by omega, by omega, hb, h3⟩
    · rintro ⟨h1, h2, hb, h3⟩
      exact ⟨⟨hb, by omega⟩, by omega, by omega, h3⟩

/-- The class of `allowedCoinSymbols`: the bytes of `A`..`Z` and `0`..`9`. -/
theorem allowedCoinSymbols_inClass (b : Nat) :
    allowedCoinSymbols.inClass b = true ↔ (65 ≤ b ∧ b ≤ 90) ∨ (48 ≤ b ∧ b ≤ 57) := by
  simp [Pattern.inClass, allowedCoinSymbols]

/-- The texts that match `^[A-Z0-9]{3,10}$`. -/
theorem MatchString_allowedCoinSymbols (s : Bytes) :
    MatchString allowedCoinSymbols s = true ↔
      (3 ≤ s.length ∧ s.length ≤ 10 ∧ ∀ b ∈ s, (65 ≤ b ∧ b ≤ 90) ∨ (48 ≤ b ∧ b ≤ 57)) := by
  unfold MatchString
  rw [Pattern.matchFrom_iff]
  simp only [allowedCoinSymbols_inClass]
  simp [allowedCoinSymbols]


/-! ## CreateCoin: the claims on `BasicCheck` and `Gas` -/

/-- When `BasicCheck` returns `nil`: every check of the function passes. -/
theorem BasicCheck_eq_none (env : Env) (data : CreateCoinData) (context : StateDB) :
    data.BasicCheck env context = none ↔
      ∃ a r : Int, data.InitialAmount = some a ∧ data.InitialReserve = some r ∧
        data.Name.length ≤ maxCoinNameBytes ∧
        MatchString allowedCoinSymbols (env.symbolString data.Symbol) = true ∧
        context.CoinExists env data.Symbol = false ∧
        10 ≤ data.ConstantReserveRatio ∧ data.ConstantReserveRatio ≤ 100 ∧
        minCoinSupply ≤ a ∧ a ≤ env.MaxCoinSupply ∧ minCoinReserve ≤ r := by
  unfold CreateCoinData.BasicCheck
  rcases hr : data.InitialReserve with _ | r <;> rcases ha : data.InitialAmount with _ | a
  · simp
  · simp
  · simp
  · simp only
    constructor
    · intro h
      refine ⟨a, r, rfl, rfl, ?_⟩
      split_ifs at h with h1 h2 h3 h4 h5 h6
      simp only [Bool.not_eq_true', Bool.not_eq_false] at h2
      simp only [Bool.not_eq_true] at h3
      exact ⟨by omega, h2, h3, by omega, by omega, by omega, by omega, by omega⟩
    · rintro ⟨a', r', ha', hr', h1, h2, h3, h4, h5, h6, h7, h8⟩
      cases ha'
      cases hr'
      rw [if_neg (by omega), if_neg (by simp [h2]), if_neg (by simp [h3]), if_neg (by omega),
        if_neg (by omega), if_neg (by omega)]

/-- C4: `BasicCheck` returns no error if and only if both amounts are present, the name has
at most 64 bytes, the symbol string has 3 to 10 bytes all in `A`..`Z` or `0`..`9`, no coin
with the symbol exists, `10 ≤ crr ≤ 100`, `10 ^ 18 ≤ initial_amount ≤ MaxCoinSupply` and
`initial_reserve ≥ 1000 * 10 ^ 18`; all bounds inclusive. -/
theorem BasicCheck_none_iff (env : Env) (data : CreateCoinData) (context : StateDB) :
    data.BasicCheck env context = none ↔
      ∃ a r : Int, data.InitialAmount = some a ∧ data.InitialReserve = some r ∧
        data.Name.length ≤ 64 ∧
        (3 ≤ (env.symbolString data.Symbol).length ∧
          (env.symbolString data.Symbol).length ≤ 10 ∧
          ∀ b ∈ env.symbolString data.Symbol, (65 ≤ b ∧ b ≤ 90) ∨ (48 ≤ b ∧ b ≤ 57)) ∧
        context.CoinExists env data.Symbol = false ∧
        10 ≤ data.ConstantReserveRatio ∧ data.ConstantReserveRatio ≤ 100 ∧
        (10 : Int) ^ 18 ≤ a ∧ a ≤ env.MaxCoinSupply ∧
        1000 * (10 : Int) ^ 18 ≤ r := by
  have hmin : minCoinSupply = (10 : Int) ^ 18 := by
    unfold minCoinSupply NoahToQNoah; norm_num
  have hres : minCoinReserve = 1000 * (10 : Int) ^ 18 := by
    unfold minCoinReserve NoahToQNoah; norm_num
  rw [BasicCheck_eq_none, ← MatchString_allowedCoinSymbols, ← hres, ← hmin]
  rfl

/-- C5: when `BasicCheck` rejects, the code is that of the first failing check in the order
`DecodeError` (a nil amount), `InvalidCoinName`, `InvalidCoinSymbol`, `CoinAlreadyExists`,
`WrongCrr`, `WrongCoinSupply` (amount), `WrongCoinSupply` (reserve). In particular, with the
earlier checks passed, `crr = 5` gives `WrongCrr`, an existing symbol gives
`CoinAlreadyExists` whatever the crr and the amounts, and, in an otherwise valid payload, a
reserve below the minimum gives `WrongCoinSupply`. -/
theorem BasicCheck_first_failing (env : Env) (data : CreateCoinData) (context : StateDB) :
    ((data.InitialReserve = none ∨ data.InitialAmount = none) →
      (data.BasicCheck env context).map Response.Code = some Code.DecodeError) ∧
    (∀ a r : Int, data.InitialAmount = some a → data.InitialReserve = some r →
      (64 < data.Name.length →
        (data.BasicCheck env context).map Response.Code = some Code.InvalidCoinName) ∧
      (data.Name.length ≤ 64 →
        (MatchString allowedCoinSymbols (env.symbolString data.Symbol) = false →
          (data.BasicCheck env context).map Response.Code = some Code.InvalidCoinSymbol) ∧
        (MatchString allowedCoinSymbols (env.symbolString data.Symbol) = true →
          (context.CoinExists env data.Symbol = true →
            (data.BasicCheck env context).map Response.Code
              = some Code.CoinAlreadyExists) ∧
          (context.CoinExists env data.Symbol = false →
            (data.ConstantReserveRatio = 5 →
              (data.BasicCheck env context).map Response.Code = some Code.WrongCrr) ∧
            (data.ConstantReserveRatio < 10 ∨ 100 < data.ConstantReserveRatio →
              (data.BasicCheck env context).map Response.Code = some Code.WrongCrr) ∧
            (10 ≤ data.ConstantReserveRatio ∧ data.ConstantReserveRatio ≤ 100 →
              (a < 10 ^ 18 ∨ env.MaxCoinSupply < a →
                (data.BasicCheck env context).map Response.Code
                  = some Code.WrongCoinSupply) ∧
              (10 ^ 18 ≤ a ∧ a ≤ env.MaxCoinSupply →
                r < 1000 * 10 ^ 18 →
                (data.BasicCheck env context).map Response.Code
                  = some Code.WrongCoinSupply)))))) := by
  have hmin : minCoinSupply = (10 : Int) ^ 18 := by
    unfold minCoinSupply NoahToQNoah; norm_num
  have hres : minCoinReserve = 1000 * (10 : Int) ^ 18 := by
    unfold minCoinReserve NoahToQNoah; norm_num
  rw [← hres, ← hmin]
  unfold CreateCoinData.BasicCheck
  refine ⟨?_, ?_⟩
  · rintro (h | h)
    · rw [h]; rfl
    · rw [h]
      cases data.InitialReserve <;> rfl
  · intro a r ha hr
    rw [ha, hr]
    simp only [maxCoinNameBytes]
    refine ⟨fun h1 => ?_, fun h1 => ⟨fun h2 => ?_, fun h2 => ⟨fun h3 => ?_, fun h3 =>
      ⟨fun h4 => ?_, fun h4 => ?_, fun h4 => ⟨fun h5 => ?_, fun h5 h6 => ?_⟩⟩⟩⟩⟩
    · rw [if_pos (by omega)]; rfl
    · rw [if_neg (by omega), if_pos (by simp [h2])]; rfl
    · rw [if_neg (by omega), if_neg (by simp [h2]), if_pos h3]; rfl
    · rw [if_neg (by omega), if_neg (by simp [h2]), if_neg (by simp [h3]),
        if_pos (by omega)]; rfl
    · rw [if_neg (by omega), if_neg (by simp [h2]), if_neg (by simp [h3]),
        if_pos (by omega)]; rfl
    · rw [if_neg (by omega), if_neg (by simp [h2]), if_neg (by simp [h3]),
        if_neg (by omega), if_pos (by omega)]; rfl
    · rw [if_neg (by omega), if_neg (by simp [h2]), if_neg (by simp [h3]),
        if_neg (by omega), if_neg (by omega), if_pos h6]; rfl

/-- The gas of a payload as a function of the length of the symbol string. -/
theorem Gas_eq (env : Env) (data : CreateCoinData) :
    data.Gas env =
      if (env.symbolString data.Symbol).length = 3 then 1000000000
      else if (env.symbolString data.Symbol).length = 4 then 100000000
      else if (env.symbolString data.Symbol).length = 5 then 10000000
      else if (env.symbolString data.Symbol).length = 6 then 1000000
      else 100000 := by
  unfold CreateCoinData.Gas
  split <;> simp_all

/-- C6: `Gas` depends only on the length `L` of the symbol string: `10 ^ 9` for `L = 3`,
`10 ^ 8` for `L = 4`, `10 ^ 7` for `L = 5`, `10 ^ 6` for `L = 6` and `10 ^ 5` for every other
length; so it is one of these five values, and from `L = 3` on it is non-increasing in `L`. -/
theorem Gas_spec (env : Env) (data : CreateCoinData) :
    ((env.symbolString data.Symbol).length = 3 → data.Gas env = 10 ^ 9) ∧
    ((env.symbolString data.Symbol).length = 4 → data.Gas env = 10 ^ 8) ∧
    ((env.symbolString data.Symbol).length = 5 → data.Gas env = 10 ^ 7) ∧
    ((env.symbolString data.Symbol).length = 6 → data.Gas env = 10 ^ 6) ∧
    (((env.symbolString data.Symbol).length < 3 ∨ 6 < (env.symbolString data.Symbol).length) →
      data.Gas env = 10 ^ 5) ∧
    (data.Gas env = 10 ^ 9 ∨ data.Gas env = 10 ^ 8 ∨ data.Gas env = 10 ^ 7 ∨
      data.Gas env = 10 ^ 6 ∨ data.Gas env = 10 ^ 5) ∧
    (∀ data' : CreateCoinData,
      (env.symbolString data'.Symbol).length = (env.symbolString data.Symbol).length →
        data'.Gas env = data.Gas env) ∧
    (∀ data' : CreateCoinData, 3 ≤ (env.symbolString data.Symbol).length →
      (env.symbolString data.Symbol).length ≤ (env.symbolString data'.Symbol).length →
        data'.Gas env ≤ data.Gas env) := by
  refine ⟨?_, ?_, ?_, ?_, ?_, ?_, ?_, ?_⟩
  · intro h; rw [Gas_eq, if_pos h]; norm_num
  · intro h; rw [Gas_eq, if_neg (by omega), if_pos h]; norm_num
  · intro h; rw [Gas_eq, if_neg (by omega), if_neg (by omega), if_pos h]; norm_num
  · intro h
    rw [Gas_eq, if_neg (by omega), if_neg (by omega), if_neg (by omega), if_pos h]; norm_num
  · intro h
    rw [Gas_eq, if_neg (by omega), if_neg (by omega), if_neg (by omega), if_neg (by omega)]
    norm_num
  · rw [Gas_eq]
    split_ifs <;> norm_num
  · intro data' h
    rw [Gas_eq, Gas_eq, h]
  · intro data' h3 hle
    rw [Gas_eq, Gas_eq]
    split_ifs <;> omega


/-- The payload of the test passes `BasicCheck` on the state of the test. -/
theorem BasicCheck_none_iff_witness : testData.BasicCheck testEnv testState = none :=
  (BasicCheck_none_iff testEnv testData testState).2
    ⟨NoahToQNoah 100, NoahToQNoah 1000, rfl, rfl, by decide,
      ⟨by decide, by decide, by decide⟩, by decide, by decide, by decide,
      by unfold NoahToQNoah; norm_num, by decide, by unfold NoahToQNoah; norm_num⟩

/-- The payload of the test with crr 5 is rejected with `WrongCrr`. -/
theorem BasicCheck_first_failing_witness :
    (CreateCoinData.BasicCheck testEnv { testData with ConstantReserveRatio := 5 }
      testState).map Response.Code = some Code.WrongCrr :=
  ((((BasicCheck_first_failing testEnv { testData with ConstantReserveRatio := 5 }
    testState).2 (NoahToQNoah 100) (NoahToQNoah 1000) rfl rfl).2 (by decide)).2
      (by decide)).2 (by decide) |>.1 rfl

/-- The gas of the payload of the test, with the six-byte symbol `ABCDEF`. -/
theorem Gas_spec_witness : testData.Gas testEnv = 10 ^ 6 :=
  (Gas_spec testEnv testData).2.2.2.1 (by decide)


/-! ## CreateCoin: lemmas on `Run` -/

theorem StateDB.SubCoinReserve_balances (s : StateDB) (c : CoinSymbol) (amt : Int) :
    (s.SubCoinReserve c amt).balances = s.balances := by
  unfold StateDB.SubCoinReserve; split <;> rfl

theorem StateDB.SubCoinVolume_balances (s : StateDB) (c : CoinSymbol) (amt : Int) :
    (s.SubCoinVolume c amt).balances = s.balances := by
  unfold StateDB.SubCoinVolume; split <;> rfl

theorem StateDB.SubCoinReserve_nonces (s : StateDB) (c : CoinSymbol) (amt : Int) :
    (s.SubCoinReserve c amt).nonces = s.nonces := by
  unfold StateDB.SubCoinReserve; split <;> rfl

theorem StateDB.SubCoinVolume_nonces (s : StateDB) (c : CoinSymbol) (amt : Int) :
    (s.SubCoinVolume c amt).nonces = s.nonces := by
  unfold StateDB.SubCoinVolume; split <;> rfl

/-- What a `SubBalance` that does not abort leaves. -/
theorem StateDB.SubBalance_some {s : StateDB} {addr : Address} {coin : CoinSymbol}
    {amt : Int} (s' : StateDB) (h : s.SubBalance addr coin amt = some s') :
    s'.balances = (fun a c =>
        if a = addr ∧ c = coin then s.balances a c - amt else s.balances a c) ∧
      s'.coins = s.coins ∧ s'.nonces = s.nonces := by
  unfold StateDB.SubBalance at h
  split_ifs at h
  simp only [Option.some.injEq] at h
  subst h
  exact ⟨rfl, rfl, rfl⟩

/-- A response of `BasicCheck` is an error: its code is not `OK` and it has no tags. -/
theorem BasicCheck_some (env : Env) (data : CreateCoinData) (context : StateDB)
    (response : Response) (h : data.BasicCheck env context = some response) :
    response.Code ≠ Code.OK ∧ response.Tags = [] := by
  unfold CreateCoinData.BasicCheck at h
  split at h
  · split_ifs at h <;> simp at h <;> subst h <;> simp
  · simp at h; subst h; simp

/-- What a successful execution (`isCheck = false`, code `OK`) of `Run` went through. -/
theorem Run_exec_inv (env : Env) (data : CreateCoinData) (tx : Transaction)
    (context : StateDB) (rewardPool : Int) (response : Response) (context' : StateDB)
    (rewardPool' : Int)
    (h : data.Run env tx context false rewardPool = some (response, context', rewardPool'))
    (hok : response.Code = Code.OK) :
    ∃ (a r commission : Int) (s1 s2 : StateDB),
      data.BasicCheck env context = none ∧
      data.InitialAmount = some a ∧ data.InitialReserve = some r ∧
      ((tx.GasCoin = env.baseCoin ∧ commission = commissionInBaseCoin env data tx) ∨
        (tx.GasCoin ≠ env.baseCoin ∧ ∃ coin, context.GetStateCoin tx.GasCoin = some coin ∧
          commissionInBaseCoin env data tx ≤ coin.ReserveBalance ∧
          commission = env.CalculateSaleAmount coin.Volume coin.ReserveBalance coin.Crr
            (commissionInBaseCoin env data tx))) ∧
      commission ≤ context.GetBalance tx.sender tx.GasCoin ∧
      r ≤ context.GetBalance tx.sender env.baseCoin ∧
      (tx.GasCoin = env.baseCoin → r + commission ≤ context.GetBalance tx.sender env.baseCoin) ∧
      ((context.SubCoinReserve tx.GasCoin (commissionInBaseCoin env data tx)).SubCoinVolume
          tx.GasCoin commission).SubBalance tx.sender env.baseCoin r = some s1 ∧
      s1.SubBalance tx.sender tx.GasCoin commission = some s2 ∧
      context' = ((s2.CreateCoin data.Symbol data.Name a data.ConstantReserveRatio r).AddBalance
          tx.sender data.Symbol a).SetNonce tx.sender tx.Nonce ∧
      rewardPool' = rewardPool + commissionInBaseCoin env data tx ∧
      response = { Code := Code.OK, Tags := data.tags env tx.sender,
                   GasUsed := tx.gas, GasWanted := tx.gas } := by
  rcases hb : data.BasicCheck env context with _ | resp
  swap
  · unfold CreateCoinData.Run at h
    rw [hb] at h
    simp only [Option.some.injEq, Prod.mk.injEq] at h
    have := (BasicCheck_some env data context resp hb).1
    rw [h.1] at this
    exact absurd hok this
  obtain ⟨a, r, ha, hr, -⟩ := (BasicCheck_eq_none env data context).1 hb
  unfold CreateCoinData.Run at h
  rw [hb] at h
  simp only [IsBaseCoin, StateDB.GetBalance, decide_eq_true_eq, ha, hr, Bool.false_eq_true,
    if_false] at h
  refine ⟨a, r, ?_⟩
  simp only [commissionInBaseCoin, StateDB.GetBalance, ha, hr, true_and]
  by_cases hg : tx.GasCoin = env.baseCoin
  · simp only [hg, ne_eq, not_true_eq_false, if_false, true_and] at h
    split_ifs at h with h1 h2 h3
    · simp only [Option.some.injEq, Prod.mk.injEq] at h
      rw [← h.1] at hok
      exact absurd hok (by simp)
    · simp only [Option.some.injEq, Prod.mk.injEq] at h
      rw [← h.1] at hok
      exact absurd hok (by simp)
    · simp only [Option.some.injEq, Prod.mk.injEq] at h
      rw [← h.1] at hok
      exact absurd hok (by simp)
    · split at h
      · exact absurd h (by simp)
      · rename_i s1 hs1
        split at h
        · exact absurd h (by simp)
        · rename_i s2 hs2
          simp only [Option.some.injEq, Prod.mk.injEq] at h
          refine ⟨_, s1, s2, Or.inl ⟨hg, rfl⟩, ?_⟩
          simp only [hg]
          exact ⟨by omega, by omega, fun _ => by omega, hs1, hs2, h.2.1.symm, h.2.2.symm,
            h.1.symm⟩
  · simp only [hg, ne_eq, not_false_eq_true, if_true, false_and, if_false] at h
    rcases hc : context.GetStateCoin tx.GasCoin with _ | coin
    · rw [hc] at h
      exact absurd h (by simp)
    · rw [hc] at h
      simp only at h
      by_cases h0 : coin.ReserveBalance
          < toInt64 tx.GasPrice * data.Gas env * env.CommissionMultiplier
      · simp only [h0, if_true, Option.some.injEq, Prod.mk.injEq] at h
        rw [← h.1] at hok
        exact absurd hok (by simp)
      · simp only [h0, if_false] at h
        split_ifs at h with h1 h2
        · simp only [Option.some.injEq, Prod.mk.injEq] at h
          rw [← h.1] at hok
          exact absurd hok (by simp)
        · simp only [Option.some.injEq, Prod.mk.injEq] at h
          rw [← h.1] at hok
          exact absurd hok (by simp)
        · split at h
          · exact absurd h (by simp)
          · rename_i s1 hs1
            split at h
            · exact absurd h (by simp)
            · rename_i s2 hs2
              simp only [Option.some.injEq, Prod.mk.injEq] at h
              refine ⟨_, s1, s2, Or.inr ⟨hg, coin, rfl, by omega, rfl⟩, ?_⟩
              exact ⟨by omega, by omega, fun hg' => absurd hg' hg, hs1, hs2, h.2.1.symm,
                h.2.2.symm, h.1.symm⟩

/-- An execution returns the response of the check: after the checks of `Run` have passed,
neither `SubBalance` aborts. -/
theorem Run_response_exec_eq_check (env : Env) (data : CreateCoinData) (tx : Transaction)
    (context : StateDB) (rewardPool : Int) :
    (data.Run env tx context false rewardPool).map (fun out => out.1)
      = (data.Run env tx context true rewardPool).map (fun out => out.1) := by
  rcases hb : data.BasicCheck env context with _ | resp
  swap
  · unfold CreateCoinData.Run
    rw [hb]
  obtain ⟨a, r, ha, hr, -⟩ := (BasicCheck_eq_none env data context).1 hb
  unfold CreateCoinData.Run
  rw [hb]
  simp only [IsBaseCoin, StateDB.GetBalance, decide_eq_true_eq, ha, hr, Bool.false_eq_true,
    if_false, if_true]
  by_cases hg : tx.GasCoin = env.baseCoin
  · simp only [hg, ne_eq, not_true_eq_false, if_false, true_and]
    split_ifs with h1 h2 h3
    · rfl
    · rfl
    · rfl
    · simp only [StateDB.SubBalance, StateDB.SubCoinVolume_balances,
        StateDB.SubCoinReserve_balances, if_neg h2, and_self, if_true]
      rw [if_neg (by omega)]
      rfl
  · simp only [hg, ne_eq, not_false_eq_true, if_true, false_and, if_false]
    rcases hc : context.GetStateCoin tx.GasCoin with _ | coin
    · rfl
    · simp only
      by_cases h0 : coin.ReserveBalance
          < toInt64 tx.GasPrice * data.Gas env * env.CommissionMultiplier
      · simp only [h0, if_true]
      · simp only [h0, if_false]
        split_ifs with h1 h2
        · rfl
        · rfl
        · simp only [StateDB.SubBalance, StateDB.SubCoinVolume_balances,
            StateDB.SubCoinReserve_balances, if_neg h2, hg, and_false, if_false, if_neg h1]
          rfl

/-- The commission in base coin for a gas price below `2 ^ 63`: the product the spec gives. -/
theorem commissionInBaseCoin_of_lt (env : Env) (data : CreateCoinData) (tx : Transaction)
    (h : tx.GasPrice < 2 ^ 63) :
    commissionInBaseCoin env data tx
      = (tx.GasPrice : Int) * data.Gas env * env.CommissionMultiplier := by
  unfold commissionInBaseCoin
  rw [toInt64_of_lt (by omega)]

/-- The response code does not depend on `isCheck`. -/
theorem Run_code_isCheck (env : Env) (data : CreateCoinData) (tx : Transaction)
    (context : StateDB) (isCheck : Bool) (rewardPool : Int) :
    (data.Run env tx context isCheck rewardPool).map (fun out => out.1.Code)
      = (data.Run env tx context true rewardPool).map (fun out => out.1.Code) := by
  cases isCheck
  · have h := congrArg (Option.map Response.Code)
      (Run_response_exec_eq_check env data tx context rewardPool)
    simpa [Option.map_map, Function.comp_def] using h
  · rfl

/-- The response code of `Run`, with `commissionInBaseCoin` the commission in base coin as
the code computes it: the code of `BasicCheck` when that fails; else
`CoinReserveNotSufficient` when the gas coin is not the base coin and its reserve is below
the commission in base coin; else `InsufficientFunds` when the sender's gas-coin balance is
below the commission, or the base-coin balance below the initial reserve, or, for the base
gas coin, below the reserve plus the commission; else `OK`. -/
theorem Run_code_table (env : Env) (data : CreateCoinData) (tx : Transaction)
    (context : StateDB) (isCheck : Bool) (rewardPool : Int) :
    (∀ resp, data.BasicCheck env context = some resp →
      (data.Run env tx context isCheck rewardPool).map (fun out => out.1.Code)
        = some resp.Code) ∧
    (data.BasicCheck env context = none →
      (∀ coin, tx.GasCoin ≠ env.baseCoin → context.GetStateCoin tx.GasCoin = some coin →
        coin.ReserveBalance < commissionInBaseCoin env data tx →
        (data.Run env tx context isCheck rewardPool).map (fun out => out.1.Code)
          = some Code.CoinReserveNotSufficient) ∧
      (∀ r commission : Int, data.InitialReserve = some r →
        ((tx.GasCoin = env.baseCoin ∧ commission = commissionInBaseCoin env data tx) ∨
          (tx.GasCoin ≠ env.baseCoin ∧ ∃ coin, context.GetStateCoin tx.GasCoin = some coin ∧
            commissionInBaseCoin env data tx ≤ coin.ReserveBalance ∧
            commission = env.CalculateSaleAmount coin.Volume coin.ReserveBalance coin.Crr
              (commissionInBaseCoin env data tx))) →
        ((context.GetBalance tx.sender tx.GasCoin < commission ∨
            context.GetBalance tx.sender env.baseCoin < r ∨
            (tx.GasCoin = env.baseCoin ∧
              context.GetBalance tx.sender env.baseCoin < r + commission)) →
          (data.Run env tx context isCheck rewardPool).map (fun out => out.1.Code)
            = some Code.InsufficientFunds) ∧
        (commission ≤ context.GetBalance tx.sender tx.GasCoin →
          r ≤ context.GetBalance tx.sender env.baseCoin →
          (tx.GasCoin = env.baseCoin →
            r + commission ≤ context.GetBalance tx.sender env.baseCoin) →
          (data.Run env tx context isCheck rewardPool).map (fun out => out.1.Code)
            = some Code.OK))) := by
  rw [Run_code_isCheck]
  refine ⟨fun resp hb => ?_, fun hb => ⟨fun coin hg hc hlt => ?_,
    fun r commission hr hstep => ⟨fun hins => ?_, fun h1 h2 h3 => ?_⟩⟩⟩
  · unfold CreateCoinData.Run
    rw [hb]
    rfl
  · unfold CreateCoinData.Run
    unfold commissionInBaseCoin at hlt
    rw [hb]
    simp only [hc, if_pos hg, if_pos hlt]
    rfl
  · unfold CreateCoinData.Run
    unfold commissionInBaseCoin at hstep
    simp only [StateDB.GetBalance] at hins
    rw [hb]
    simp only [IsBaseCoin, StateDB.GetBalance, decide_eq_true_eq, hr, if_true]
    rcases hstep with ⟨hg, rfl⟩ | ⟨hg, coin, hc, hle, rfl⟩
    · simp only [hg, ne_eq, not_true_eq_false, if_false, true_and] at hins ⊢
      split_ifs with c1 c2 c3
      · rfl
      · rfl
      · rfl
      · exfalso
        rcases hins with h | h | h
        · exact c1 h
        · exact c2 h
        · exact c3 (by omega)
    · simp only [hg, ne_eq, not_false_eq_true, if_true, false_and, if_false, hc,
        if_neg (not_lt.2 hle), or_false] at hins ⊢
      split_ifs with c1 c2
      · rfl
      · rfl
      · exfalso
        rcases hins with h | h
        · exact c1 h
        · exact c2 h
  · unfold CreateCoinData.Run
    unfold commissionInBaseCoin at hstep
    simp only [StateDB.GetBalance] at h1 h2 h3
    rw [hb]
    simp only [IsBaseCoin, StateDB.GetBalance, decide_eq_true_eq, hr, if_true]
    rcases hstep with ⟨hg, rfl⟩ | ⟨hg, coin, hc, hle, rfl⟩
    · have h3' := h3 hg
      simp only [hg, ne_eq, not_true_eq_false, if_false, true_and] at h1 h2 h3' ⊢
      rw [if_neg (by omega), if_neg (by omega), if_neg (by omega)]
      rfl
    · simp only [hg, ne_eq, not_false_eq_true, if_true, false_and, if_false, hc,
        if_neg (not_lt.2 hle)]
      rw [if_neg (by omega), if_neg (by omega)]
      rfl

/-- Either `Run` leaves the state view and the reward pool as they were, or it is an
execution (`isCheck = false`) with the code `OK`. -/
theorem Run_unchanged_or_exec (env : Env) (data : CreateCoinData) (tx : Transaction)
    (context : StateDB) (isCheck : Bool) (rewardPool : Int) (response : Response)
    (context' : StateDB) (rewardPool' : Int)
    (h : data.Run env tx context isCheck rewardPool = some (response, context', rewardPool')) :
    (context' = context ∧ rewardPool' = rewardPool) ∨
      (isCheck = false ∧ response.Code = Code.OK) := by
  rcases hb : data.BasicCheck env context with _ | resp
  swap
  · unfold CreateCoinData.Run at h
    rw [hb] at h
    simp only [Option.some.injEq, Prod.mk.injEq] at h
    exact Or.inl ⟨h.2.1.symm, h.2.2.symm⟩
  obtain ⟨a, r, ha, hr, -⟩ := (BasicCheck_eq_none env data context).1 hb
  unfold CreateCoinData.Run at h
  rw [hb] at h
  simp only [IsBaseCoin, StateDB.GetBalance, decide_eq_true_eq, ha, hr] at h
  have key : ∀ (o : Option (Response ⊕ Int)),
      (match o with
        | none => none
        | some (Sum.inl response) => some (response, context, rewardPool)
        | some (Sum.inr commission) =>
          if context.balances tx.sender tx.GasCoin < commission then
            some ({ Code := Code.InsufficientFunds,
                    Log := Log.insufficientFunds tx.sender commission tx.GasCoin },
                  context, rewardPool)
          else if context.balances tx.sender env.baseCoin < r then
            some ({ Code := Code.InsufficientFunds,
                    Log := Log.insufficientFunds tx.sender r env.baseCoin },
                  context, rewardPool)
          else if tx.GasCoin = env.baseCoin ∧
              context.balances tx.sender env.baseCoin < 0 + r + commission then
            some ({ Code := Code.InsufficientFunds,
                    Log := Log.insufficientFunds tx.sender (0 + r + commission) tx.GasCoin },
                  context, rewardPool)
          else if isCheck = true then
            some ({ Code := Code.OK, Tags := data.tags env tx.sender,
                    GasUsed := tx.gas, GasWanted := tx.gas }, context, rewardPool)
          else
            match ((context.SubCoinReserve tx.GasCoin
                (toInt64 tx.GasPrice * data.Gas env * env.CommissionMultiplier)).SubCoinVolume
                tx.GasCoin commission).SubBalance tx.sender env.baseCoin r with
            | none => none
            | some context =>
              match context.SubBalance tx.sender tx.GasCoin commission with
              | none => none
              | some context =>
                some ({ Code := Code.OK, Tags := data.tags env tx.sender,
                        GasUsed := tx.gas, GasWanted := tx.gas },
                  ((context.CreateCoin data.Symbol data.Name a data.ConstantReserveRatio
                    r).AddBalance tx.sender data.Symbol a).SetNonce tx.sender tx.Nonce,
                  rewardPool + toInt64 tx.GasPrice * data.Gas env * env.CommissionMultiplier))
        = some (response, context', rewardPool') →
      (context' = context ∧ rewardPool' = rewardPool) ∨
        (isCheck = false ∧ response.Code = Code.OK) := by
    intro o ho
    rcases o with _ | resp | commission
    · exact absurd ho (by simp)
    · simp only [Option.some.injEq, Prod.mk.injEq] at ho
      exact Or.inl ⟨ho.2.1.symm, ho.2.2.symm⟩
    · simp only at ho
      split_ifs at ho with c1 c2 c3 c4
      · simp only [Option.some.injEq, Prod.mk.injEq] at ho
        exact Or.inl ⟨ho.2.1.symm, ho.2.2.symm⟩
      · simp only [Option.some.injEq, Prod.mk.injEq] at ho
        exact Or.inl ⟨ho.2.1.symm, ho.2.2.symm⟩
      · simp only [Option.some.injEq, Prod.mk.injEq] at ho
        exact Or.inl ⟨ho.2.1.symm, ho.2.2.symm⟩
      · simp only [Option.some.injEq, Prod.mk.injEq] at ho
        exact Or.inl ⟨ho.2.1.symm, ho.2.2.symm⟩
      · right
        refine ⟨by simpa using c4, ?_⟩
        split at ho
        · exact absurd ho (by simp)
        · split at ho
          · exact absurd ho (by simp)
          · simp only [Option.some.injEq, Prod.mk.injEq] at ho
            rw [← ho.1]
  exact key _ h


/-- With a gas price below `2 ^ 63`, base gas coin and passing `BasicCheck`, the response
code is `InsufficientFunds` exactly when the base-coin balance of the sender is below the
initial reserve plus `gas_price * Gas() * CommissionMultiplier` or below either of the two,
and `OK` otherwise. -/
theorem Run_code_base_of_lt (env : Env) (data : CreateCoinData) (tx : Transaction)
    (context : StateDB) (isCheck : Bool) (rewardPool r : Int)
    (hgp : tx.GasPrice < 2 ^ 63) (hg : tx.GasCoin = env.baseCoin)
    (hb : data.BasicCheck env context = none) (hr : data.InitialReserve = some r) :
    (data.Run env tx context isCheck rewardPool).map (fun out => out.1.Code)
      = if context.GetBalance tx.sender env.baseCoin
            < (tx.GasPrice : Int) * data.Gas env * env.CommissionMultiplier ∨
          context.GetBalance tx.sender env.baseCoin < r ∨
          context.GetBalance tx.sender env.baseCoin
            < r + (tx.GasPrice : Int) * data.Gas env * env.CommissionMultiplier
        then some Code.InsufficientFunds else some Code.OK := by
  have hc := commissionInBaseCoin_of_lt env data tx hgp
  have ht := ((Run_code_table env data tx context isCheck rewardPool).2 hb).2 r
    (commissionInBaseCoin env data tx) hr (Or.inl ⟨hg, rfl⟩)
  rw [hc, hg] at ht
  split_ifs with c
  · apply ht.1
    rcases c with c | c | c
    · exact Or.inl c
    · exact Or.inr (Or.inl c)
    · exact Or.inr (Or.inr ⟨rfl, c⟩)
  · exact ht.2 (by omega) (by omega) (fun _ => by omega)

/-! ## CreateCoin: the claims on `Run` -/

/-- C8: `Run` changes the state view and the reward pool only when it returns the code `OK`
with `isCheck = false`: when the code is not `OK` (non-zero), or `isCheck = true`, the state
view (every balance, coin record and nonce) and the reward pool are as before the call. -/
theorem Run_no_mutation (env : Env) (data : CreateCoinData) (tx : Transaction)
    (context : StateDB) (isCheck : Bool) (rewardPool : Int) (response : Response)
    (context' : StateDB) (rewardPool' : Int)
    (h : data.Run env tx context isCheck rewardPool = some (response, context', rewardPool'))
    (hno : response.Code ≠ Code.OK ∨ isCheck = true) :
    context' = context ∧ rewardPool' = rewardPool ∧
      (∀ addr coin, context'.GetBalance addr coin = context.GetBalance addr coin) ∧
      (∀ symbol, context'.GetStateCoin symbol = context.GetStateCoin symbol) ∧
      (∀ addr, context'.GetNonce addr = context.GetNonce addr) := by
  rcases Run_unchanged_or_exec env data tx context isCheck rewardPool response context'
    rewardPool' h with ⟨h1, h2⟩ | ⟨h1, h2⟩
  · subst h1
    exact ⟨rfl, h2, fun _ _ => rfl, fun _ => rfl, fun _ => rfl⟩
  · rcases hno with hno | hno
    · exact absurd h2 hno
    · rw [h1] at hno
      exact absurd hno (by simp)

/-- The state and reward pool of the test after the rejected transaction with crr 5. -/
theorem Run_no_mutation_witness :
    ∃ response context' rewardPool',
      CreateCoinData.Run testEnv { testData with ConstantReserveRatio := 5 } testTx testState
        false 7 = some (response, context', rewardPool') ∧
      response.Code = Code.WrongCrr ∧ context' = testState ∧ rewardPool' = 7 := by
  have hrun : CreateCoinData.Run testEnv { testData with ConstantReserveRatio := 5 } testTx
      testState false 7
      = some ({ Code := Code.WrongCrr, Log := Log.wrongCrr }, testState, 7) := by
    unfold CreateCoinData.Run
    have hb : CreateCoinData.BasicCheck testEnv { testData with ConstantReserveRatio := 5 }
        testState = some { Code := Code.WrongCrr, Log := Log.wrongCrr } := by decide
    rw [hb]
  have hmut := Run_no_mutation testEnv { testData with ConstantReserveRatio := 5 } testTx
    testState false 7 _ _ _ hrun (Or.inl (by decide))
  exact ⟨_, _, _, hrun, rfl, hmut.1, hmut.2.1⟩

/-- The balances after a successful execution with the base coin as gas coin, with
`commissionInBaseCoin` the commission as the code computes it: the sender's base-coin
balance is the one before minus the initial reserve minus the commission, the sender's
balance of the new symbol is the one before plus the initial amount, and every other
balance is as before. -/
theorem Run_exec_balances_base (env : Env) (data : CreateCoinData) (tx : Transaction)
    (context : StateDB) (rewardPool : Int) (response : Response) (context' : StateDB)
    (rewardPool' : Int)
    (h : data.Run env tx context false rewardPool = some (response, context', rewardPool'))
    (hok : response.Code = Code.OK) (hg : tx.GasCoin = env.baseCoin) :
    ∃ a r : Int, data.InitialAmount = some a ∧ data.InitialReserve = some r ∧
      context'.GetBalance tx.sender env.baseCoin
        = context.GetBalance tx.sender env.baseCoin - r - commissionInBaseCoin env data tx ∧
      context'.GetBalance tx.sender data.Symbol
        = context.GetBalance tx.sender data.Symbol + a ∧
      (∀ addr coin, ¬ (addr = tx.sender ∧ (coin = env.baseCoin ∨ coin = data.Symbol)) →
        context'.GetBalance addr coin = context.GetBalance addr coin) := by
  obtain ⟨a, r, commission, s1, s2, hb, ha, hr, hstep, -, h2, -, hs1, hs2, hctx, -, -⟩ :=
    Run_exec_inv env data tx context rewardPool response context' rewardPool' h hok
  have hcom : commission = commissionInBaseCoin env data tx := by
    rcases hstep with ⟨_, hc⟩ | ⟨hne, _⟩
    · exact hc
    · exact absurd hg hne
  have hsym : data.Symbol ≠ env.baseCoin := by
    obtain ⟨_, _, _, _, _, _, hex, _⟩ := (BasicCheck_eq_none env data context).1 hb
    intro heq
    simp [StateDB.CoinExists, IsBaseCoin, heq] at hex
  subst hcom
  rw [hg] at hs1 hs2
  obtain ⟨hb1, -, -⟩ := StateDB.SubBalance_some s1 hs1
  obtain ⟨hb2, -, -⟩ := StateDB.SubBalance_some s2 hs2
  rw [StateDB.SubCoinVolume_balances, StateDB.SubCoinReserve_balances] at hb1
  subst hctx
  refine ⟨a, r, ha, hr, ?_, ?_, ?_⟩
  · simp [StateDB.GetBalance, StateDB.SetNonce, StateDB.AddBalance, StateDB.CreateCoin,
      Ne.symm hsym, hb1, hb2]
  · simp [StateDB.GetBalance, StateDB.SetNonce, StateDB.AddBalance, StateDB.CreateCoin,
      hsym, hb1, hb2]
  · intro addr coin hne
    have h1 : ¬ (addr = tx.sender ∧ coin = data.Symbol) := fun hh => hne ⟨hh.1, Or.inr hh.2⟩
    have h2 : ¬ (addr = tx.sender ∧ coin = env.baseCoin) := fun hh => hne ⟨hh.1, Or.inl hh.2⟩
    simp [StateDB.GetBalance, StateDB.SetNonce, StateDB.AddBalance, StateDB.CreateCoin, h1, h2,
      hb1, hb2]

/-- The scenario of `TestCreateCoinTx`: the execution answers `OK` and leaves the sender
`998000 * 10 ^ 18` of the base coin. -/
theorem Run_test_scenario :
    (testData.Run testEnv testTx testState false 0).map
        (fun out => (out.1.Code, out.2.1.GetBalance testAddr testEnv.baseCoin,
          out.2.1.GetStateCoin testSymbol, out.2.1.GetNonce testAddr, out.2.2))
      = some (Code.OK, 998000 * 10 ^ 18,
          some ⟨testData.Name, 100 * 10 ^ 18, 50, 1000 * 10 ^ 18⟩, 1, 1000 * 10 ^ 18) := by
  decide

/-- C10: after a successful execution (code `OK`, `isCheck = false`) the coin with the
symbol of the payload exists, and its record has the name, the initial amount as volume,
the crr and the initial reserve as reserve of the payload. -/
theorem Run_exec_coin_record (env : Env) (data : CreateCoinData) (tx : Transaction)
    (context : StateDB) (rewardPool : Int) (response : Response) (context' : StateDB)
    (rewardPool' : Int)
    (h : data.Run env tx context false rewardPool = some (response, context', rewardPool'))
    (hok : response.Code = Code.OK) :
    ∃ a r : Int, data.InitialAmount = some a ∧ data.InitialReserve = some r ∧
      context'.CoinExists env data.Symbol = true ∧
      context'.GetStateCoin data.Symbol
        = some { Name := data.Name, Volume := a, Crr := data.ConstantReserveRatio,
                 ReserveBalance := r } := by
  obtain ⟨a, r, commission, s1, s2, -, ha, hr, -, -, -, -, -, -, hctx, -, -⟩ :=
    Run_exec_inv env data tx context rewardPool response context' rewardPool' h hok
  subst hctx
  refine ⟨a, r, ha, hr, ?_, ?_⟩
  · simp [StateDB.CoinExists, StateDB.SetNonce, StateDB.AddBalance, StateDB.CreateCoin]
  · simp [StateDB.GetStateCoin, StateDB.SetNonce, StateDB.AddBalance, StateDB.CreateCoin]


/-- The coin record after the execution of the test. -/
theorem Run_exec_coin_record_witness :
    ∃ response context' rewardPool',
      testData.Run testEnv testTx testState false 0 = some (response, context', rewardPool') ∧
      response.Code = Code.OK ∧
      context'.GetStateCoin testData.Symbol
        = some { Name := testData.Name, Volume := NoahToQNoah 100, Crr := 50,
                 ReserveBalance := NoahToQNoah 1000 } := by
  have hcode : (testData.Run testEnv testTx testState false 0).map (fun out => out.1.Code)
      = some Code.OK := by decide
  rcases hrun : testData.Run testEnv testTx testState false 0 with
    _ | ⟨response, context', rewardPool'⟩
  · rw [hrun] at hcode
    exact absurd hcode (by simp)
  · rw [hrun] at hcode
    have hok : response.Code = Code.OK := by simpa using hcode
    obtain ⟨a, r, ha, hr, -, hrec⟩ := Run_exec_coin_record testEnv testData testTx testState 0
      response context' rewardPool' hrun hok
    have ha' : a = NoahToQNoah 100 := by
      have : some (NoahToQNoah 100) = some a := ha
      simpa using this.symm
    have hr' : r = NoahToQNoah 1000 := by
      have : some (NoahToQNoah 1000) = some r := hr
      simpa using this.symm
    subst ha' hr'
    exact ⟨response, context', rewardPool', rfl, hok, hrec⟩


/-! ## Reward schedule: the range of the rewards -/

/-- Every reward is a natural multiple of `10 ^ 18`. -/
theorem GetRewardForBlock_multiple (st : RewardState) (h : Nat) :
    ∃ k : Nat, GetRewardForBlock st h = (k : Int) * 10 ^ 18 := by
  rcases Nat.lt_trichotomy ((h + st.startHeight) % uint64Size) lastBlock with hlt | heq | hgt
  · have hb := GetRewardForBlock_below ⟨0, st.BeforeGenesis⟩ ((h + st.startHeight) % uint64Size)
      (by simpa using hlt)
    have hsame : GetRewardForBlock st h
        = GetRewardForBlock ⟨0, st.BeforeGenesis⟩ ((h + st.startHeight) % uint64Size) := by
      unfold GetRewardForBlock
      simp only [Nat.add_zero, Nat.mod_mod]
    rw [hsame, hb]
    unfold lastBlock at hlt
    refine ⟨333 - ((h + st.startHeight) % uint64Size) / 200000, ?_⟩
    unfold NoahToQNoah
    simp only [Nat.add_zero]
    have : ((h + st.startHeight) % uint64Size) / 200000 ≤ 218 := by omega
    rw [Nat.cast_sub (by omega)]
    norm_num
  · refine ⟨68, ?_⟩
    unfold GetRewardForBlock
    simp only [heq, lastReward, NoahToQNoah]
    rw [if_neg (by omega)]
    norm_num
  · refine ⟨0, ?_⟩
    unfold GetRewardForBlock
    simp only
    rw [if_pos hgt]
    norm_num

/-- C20: with `lastBlock = 43702611`, `firstReward = 333` and the interval 200000, for every
`H = h + startHeight < lastBlock` the value `333 - H / 200000` is at least 115; the branch
of `GetRewardForBlock` for a non-positive reward is never taken (whenever the code reaches
it, with the wrapped height below `lastBlock`, the reward is positive); every reward below
`lastBlock` lies between `115 * 10 ^ 18` and `333 * 10 ^ 18`; and every reward at any height
is a natural multiple of `10 ^ 18`. -/
theorem GetRewardForBlock_range (st : RewardState) (h : Nat) :
    (h + st.startHeight < 43702611 →
      (115 : Int) ≤ 333 - (((h + st.startHeight) / 200000 : Nat) : Int) ∧
      115 * 10 ^ 18 ≤ GetRewardForBlock st h ∧ GetRewardForBlock st h ≤ 333 * 10 ^ 18) ∧
    ((h + st.startHeight) % uint64Size < lastBlock →
      ¬ (firstReward - toInt64 ((h + st.startHeight) % uint64Size / 200000) ≤ 0)) ∧
    (∃ k : Nat, GetRewardForBlock st h = (k : Int) * 10 ^ 18) := by
  refine ⟨fun hlt => ?_, fun hlt => ?_, GetRewardForBlock_multiple st h⟩
  · rw [GetRewardForBlock_below st h hlt]
    have : (h + st.startHeight) / 200000 ≤ 218 := by omega
    unfold NoahToQNoah
    refine ⟨by omega, by omega, by omega⟩
  · unfold lastBlock at hlt
    have hd : (h + st.startHeight) % uint64Size / 200000 ≤ 218 := by omega
    rw [toInt64_of_lt (by omega)]
    unfold firstReward
    omega

/-- The reward one block before `lastBlock`, with start height 3: `115 * 10 ^ 18`. -/
theorem GetRewardForBlock_range_witness :
    115 * 10 ^ 18 ≤ GetRewardForBlock ⟨3, 0⟩ 43702607 ∧
    GetRewardForBlock ⟨3, 0⟩ 43702607 ≤ 333 * 10 ^ 18 ∧
    GetRewardForBlock ⟨3, 0⟩ 43702607 = 115000000000000000000 :=
  ⟨((GetRewardForBlock_range ⟨3, 0⟩ 43702607).1 (by decide)).2.1,
    ((GetRewardForBlock_range ⟨3, 0⟩ 43702607).1 (by decide)).2.2, by decide⟩


/-! ## CreateCoin: the response, the reward pool and the nonce -/

/-- The response of a check (`isCheck = true`): either the successful response with its
three tags and the gas of the transaction, or an error without tags. -/
theorem Run_check_shape (env : Env) (data : CreateCoinData) (tx : Transaction)
    (context : StateDB) (rewardPool : Int) (response : Response) (context' : StateDB)
    (rewardPool' : Int)
    (h : data.Run env tx context true rewardPool = some (response, context', rewardPool')) :
    response = { Code := Code.OK, Tags := data.tags env tx.sender,
                 GasUsed := tx.gas, GasWanted := tx.gas } ∨
      (response.Code ≠ Code.OK ∧ response.Tags = []) := by
  rcases hb : data.BasicCheck env context with _ | resp
  swap
  · unfold CreateCoinData.Run at h
    rw [hb] at h
    simp only [Option.some.injEq, Prod.mk.injEq] at h
    rw [← h.1]
    exact Or.inr (BasicCheck_some env data context resp hb)
  obtain ⟨a, r, ha, hr, -⟩ := (BasicCheck_eq_none env data context).1 hb
  unfold CreateCoinData.Run at h
  rw [hb] at h
  simp only [IsBaseCoin, StateDB.GetBalance, decide_eq_true_eq, ha, hr, if_true] at h
  by_cases hg : tx.GasCoin = env.baseCoin
  · simp only [hg, ne_eq, not_true_eq_false, if_false, true_and] at h
    split_ifs at h with h1 h2 h3
    all_goals simp only [Option.some.injEq, Prod.mk.injEq] at h
    all_goals rw [← h.1]
    · exact Or.inr ⟨by simp, rfl⟩
    · exact Or.inr ⟨by simp, rfl⟩
    · exact Or.inr ⟨by simp, rfl⟩
    · exact Or.inl rfl
  · simp only [hg, ne_eq, not_false_eq_true, if_true, false_and, if_false] at h
    rcases hc : context.GetStateCoin tx.GasCoin with _ | coin
    · rw [hc] at h
      exact absurd h (by simp)
    · rw [hc] at h
      simp only at h
      by_cases h0 : coin.ReserveBalance
          < toInt64 tx.GasPrice * data.Gas env * env.CommissionMultiplier
      · simp only [h0, if_true, Option.some.injEq, Prod.mk.injEq] at h
        rw [← h.1]
        exact Or.inr ⟨by simp, rfl⟩
      · simp only [h0, if_false] at h
        split_ifs at h with h1 h2
        all_goals simp only [Option.some.injEq, Prod.mk.injEq] at h
        all_goals rw [← h.1]
        · exact Or.inr ⟨by simp, rfl⟩
        · exact Or.inr ⟨by simp, rfl⟩
        · exact Or.inl rfl

/-- The response of any run has the shape of the response of a check. -/
theorem Run_shape (env : Env) (data : CreateCoinData) (tx : Transaction)
    (context : StateDB) (isCheck : Bool) (rewardPool : Int) (response : Response)
    (context' : StateDB) (rewardPool' : Int)
    (h : data.Run env tx context isCheck rewardPool = some (response, context', rewardPool')) :
    response = { Code := Code.OK, Tags := data.tags env tx.sender,
                 GasUsed := tx.gas, GasWanted := tx.gas } ∨
      (response.Code ≠ Code.OK ∧ response.Tags = []) := by
  cases isCheck
  · have heq := Run_response_exec_eq_check env data tx context rewardPool
    rw [h] at heq
    rcases hc : data.Run env tx context true rewardPool with _ | ⟨resp, c', p'⟩
    · rw [hc] at heq
      exact absurd heq (by simp)
    · rw [hc] at heq
      simp only [Option.map_some', Option.some.injEq] at heq
      subst heq
      exact Run_check_shape env data tx context rewardPool _ c' p' hc
  · exact Run_check_shape env data tx context rewardPool response context' rewardPool' h

/-- C17: every `OK` response of `Run`, check or execution, carries exactly the tags
`tx.type` (hex of the `CreateCoin` type byte), `tx.from` (hex of the sender bytes) and
`tx.coin` (the symbol string), in this order, and `GasUsed = GasWanted = tx.Gas()`; every
response with another code carries no tags. -/
theorem Run_response_shape (env : Env) (data : CreateCoinData) (tx : Transaction)
    (context : StateDB) (isCheck : Bool) (rewardPool : Int) (response : Response)
    (context' : StateDB) (rewardPool' : Int)
    (h : data.Run env tx context isCheck rewardPool = some (response, context', rewardPool')) :
    (response.Code = Code.OK →
      response.Tags = [ ⟨"tx.type", hexEncode [env.TypeCreateCoin % 256]⟩,
                        ⟨"tx.from", hexEncode tx.sender⟩,
                        ⟨"tx.coin", env.symbolString data.Symbol⟩ ] ∧
      response.GasUsed = tx.gas ∧ response.GasWanted = tx.gas) ∧
    (response.Code ≠ Code.OK → response.Tags = []) := by
  rcases Run_shape env data tx context isCheck rewardPool response context' rewardPool' h
    with hok | ⟨hne, htags⟩
  · subst hok
    exact ⟨fun _ => ⟨rfl, rfl, rfl⟩, fun hno => absurd rfl hno⟩
  · exact ⟨fun hok => absurd hok hne, fun _ => htags⟩

/-- The response of the test: the tags `tx.type = 05`, `tx.from` = the 40 hex digits of the
sender, `tx.coin = ABCDEF`, and the gas of the transaction. -/
theorem Run_response_shape_witness :
    ∃ response context' rewardPool',
      testData.Run testEnv testTx testState true 0 = some (response, context', rewardPool') ∧
      response.Code = Code.OK ∧
      response.Tags = [ ⟨"tx.type", [48, 53]⟩,
        ⟨"tx.from", [48, 49, 48, 50, 48, 51, 48, 52, 48, 53, 48, 54, 48, 55, 48, 56, 48, 57,
          48, 97, 48, 98, 48, 99, 48, 100, 48, 101, 48, 102, 49, 48, 49, 49, 49, 50, 49, 51,
          49, 52]⟩,
        ⟨"tx.coin", [65, 66, 67, 68, 69, 70]⟩ ] ∧
      response.GasUsed = 1000000 ∧ response.GasWanted = 1000000 := by
  have hcode : (testData.Run testEnv testTx testState true 0).map (fun out => out.1.Code)
      = some Code.OK := by decide
  rcases hrun : testData.Run testEnv testTx testState true 0 with
    _ | ⟨response, context', rewardPool'⟩
  · rw [hrun] at hcode
    exact absurd hcode (by simp)
  · rw [hrun] at hcode
    have hok : response.Code = Code.OK := by simpa using hcode
    obtain ⟨htags, hused, hwanted⟩ := (Run_response_shape testEnv testData testTx testState
      true 0 response context' rewardPool' hrun).1 hok
    refine ⟨response, context', rewardPool', rfl, hok, ?_, hused, hwanted⟩
    rw [htags]
    decide

/-- C19: a check predicts the execution: from the same state and reward pool, `Run` with
`isCheck = true` and with `isCheck = false` return the same response (code, log, tags,
gas used and wanted), or both none; and the check leaves the state view and the reward pool
as they were. -/
theorem Run_check_predicts_exec (env : Env) (data : CreateCoinData) (tx : Transaction)
    (context : StateDB) (rewardPool : Int) :
    (data.Run env tx context true rewardPool).map (fun out => out.1)
      = (data.Run env tx context false rewardPool).map (fun out => out.1) ∧
    (data.Run env tx context true rewardPool).map
        (fun out => (out.1.Code, out.1.Log, out.1.Tags, out.1.GasUsed, out.1.GasWanted))
      = (data.Run env tx context false rewardPool).map
        (fun out => (out.1.Code, out.1.Log, out.1.Tags, out.1.GasUsed, out.1.GasWanted)) ∧
    (∀ response context' rewardPool',
      data.Run env tx context true rewardPool = some (response, context', rewardPool') →
      context' = context ∧ rewardPool' = rewardPool) := by
  have heq := (Run_response_exec_eq_check env data tx context rewardPool).symm
  refine ⟨heq, ?_, ?_⟩
  · have h := congrArg (Option.map fun r : Response =>
      (r.Code, r.Log, r.Tags, r.GasUsed, r.GasWanted)) heq
    simpa [Option.map_map, Function.comp_def] using h
  · intro response context' rewardPool' h
    rcases Run_unchanged_or_exec env data tx context true rewardPool response context'
      rewardPool' h with hun | ⟨hf, _⟩
    · exact hun
    · exact absurd hf (by simp)

/-- The check and the execution of the test transaction answer alike. -/
theorem Run_check_predicts_exec_witness :
    (testData.Run testEnv testTx testState true 0).map (fun out => out.1)
      = (testData.Run testEnv testTx testState false 0).map (fun out => out.1) ∧
    (testData.Run testEnv testTx testState false 0).map (fun out => out.1.Code)
      = some Code.OK :=
  ⟨(Run_check_predicts_exec testEnv testData testTx testState 0).1, by decide⟩

/-- The reward pool and the nonces after a successful execution: the pool has grown by the
commission in base coin as the code computes it, the nonce of the sender is the nonce of the
transaction, every other nonce is as before. -/
theorem Run_exec_pool_nonce (env : Env) (data : CreateCoinData) (tx : Transaction)
    (context : StateDB) (rewardPool : Int) (response : Response) (context' : StateDB)
    (rewardPool' : Int)
    (h : data.Run env tx context false rewardPool = some (response, context', rewardPool'))
    (hok : response.Code = Code.OK) :
    rewardPool' = rewardPool + commissionInBaseCoin env data tx ∧
    context'.GetNonce tx.sender = tx.Nonce ∧
    (∀ addr, addr ≠ tx.sender → context'.GetNonce addr = context.GetNonce addr) := by
  obtain ⟨a, r, commission, s1, s2, -, -, -, -, -, -, -, hs1, hs2, hctx, hpool, -⟩ :=
    Run_exec_inv env data tx context rewardPool response context' rewardPool' h hok
  obtain ⟨-, -, hn1⟩ := StateDB.SubBalance_some s1 hs1
  obtain ⟨-, -, hn2⟩ := StateDB.SubBalance_some s2 hs2
  rw [StateDB.SubCoinVolume_nonces, StateDB.SubCoinReserve_nonces] at hn1
  subst hctx
  refine ⟨hpool, ?_, ?_⟩
  · simp [StateDB.GetNonce, StateDB.SetNonce]
  · intro addr hne
    simp [StateDB.GetNonce, StateDB.SetNonce, StateDB.AddBalance, StateDB.CreateCoin, hne,
      hn1, hn2]

/-! ## CreateCoin: the effect of an execution -/

theorem StateDB.SubCoinReserve_coins (s : StateDB) (c : CoinSymbol) (amt : Int)
    (c' : CoinSymbol) :
    (s.SubCoinReserve c amt).coins c'
      = if c' = c then
          (s.coins c').map fun coin => { coin with ReserveBalance := coin.ReserveBalance - amt }
        else s.coins c' := by
  unfold StateDB.SubCoinReserve
  rcases hc : s.coins c with _ | coin
  · by_cases h : c' = c
    · subst h; simp [hc]
    · simp [h]
  · by_cases h : c' = c
    · subst h; simp [hc]
    · simp [h]

theorem StateDB.SubCoinVolume_coins (s : StateDB) (c : CoinSymbol) (amt : Int)
    (c' : CoinSymbol) :
    (s.SubCoinVolume c amt).coins c'
      = if c' = c then
          (s.coins c').map fun coin => { coin with Volume := coin.Volume - amt }
        else s.coins c' := by
  unfold StateDB.SubCoinVolume
  rcases hc : s.coins c with _ | coin
  · by_cases h : c' = c
    · subst h; simp [hc]
    · simp [h]
  · by_cases h : c' = c
    · subst h; simp [hc]
    · simp [h]

/-- The effect of a successful execution (`isCheck = false`, code `OK`) on the balances, the
coin records and the reward pool, with the commission the checks were made with. -/
theorem Run_exec_effect (env : Env) (data : CreateCoinData) (tx : Transaction)
    (context : StateDB) (rewardPool : Int) (response : Response) (context' : StateDB)
    (rewardPool' : Int)
    (h : data.Run env tx context false rewardPool = some (response, context', rewardPool'))
    (hok : response.Code = Code.OK) :
    ∃ a r commission : Int,
      data.BasicCheck env context = none ∧
      data.InitialAmount = some a ∧ data.InitialReserve = some r ∧
      ((tx.GasCoin = env.baseCoin ∧ commission = commissionInBaseCoin env data tx) ∨
        (tx.GasCoin ≠ env.baseCoin ∧ ∃ coin, context.GetStateCoin tx.GasCoin = some coin ∧
          commissionInBaseCoin env data tx ≤ coin.ReserveBalance ∧
          commission = env.CalculateSaleAmount coin.Volume coin.ReserveBalance coin.Crr
            (commissionInBaseCoin env data tx))) ∧
      commission ≤ context.GetBalance tx.sender tx.GasCoin ∧
      r ≤ context.GetBalance tx.sender env.baseCoin ∧
      (tx.GasCoin = env.baseCoin → r + commission ≤ context.GetBalance tx.sender env.baseCoin) ∧
      (∀ addr c, context'.GetBalance addr c
        = context.GetBalance addr c
          - (if addr = tx.sender ∧ c = env.baseCoin then r else 0)
          - (if addr = tx.sender ∧ c = tx.GasCoin then commission else 0)
          + (if addr = tx.sender ∧ c = data.Symbol then a else 0)) ∧
      (∀ c, context'.GetStateCoin c
        = if c = data.Symbol then
            some { Name := data.Name, Volume := a, Crr := data.ConstantReserveRatio,
                   ReserveBalance := r }
          else if c = tx.GasCoin then
            (context.GetStateCoin c).map fun coin =>
              { coin with ReserveBalance := coin.ReserveBalance - commissionInBaseCoin env data tx,
                          Volume := coin.Volume - commission }
          else context.GetStateCoin c) ∧
      rewardPool' = rewardPool + commissionInBaseCoin env data tx := by
  obtain ⟨a, r, commission, s1, s2, hb, ha, hr, hstep, h1, h2, h3, hs1, hs2, hctx, hpool, -⟩ :=
    Run_exec_inv env data tx context rewardPool response context' rewardPool' h hok
  obtain ⟨hb1, hc1, -⟩ := StateDB.SubBalance_some s1 hs1
  obtain ⟨hb2, hc2, -⟩ := StateDB.SubBalance_some s2 hs2
  rw [StateDB.SubCoinVolume_balances, StateDB.SubCoinReserve_balances] at hb1
  subst hctx
  refine ⟨a, r, commission, hb, ha, hr, hstep, h1, h2, h3, ?_, ?_, hpool⟩
  · intro addr c
    simp only [StateDB.GetBalance, StateDB.SetNonce, StateDB.AddBalance, StateDB.CreateCoin,
      hb1, hb2]
    split_ifs <;> ring
  · intro c
    simp only [StateDB.GetStateCoin, StateDB.SetNonce, StateDB.AddBalance,
      StateDB.CreateCoin, hc2, hc1, StateDB.SubCoinVolume_coins, StateDB.SubCoinReserve_coins]
    by_cases hsym : c = data.Symbol
    · simp [hsym]
    · by_cases hgc : c = tx.GasCoin
      · simp only [hsym, hgc, if_false, if_true]
        rcases context.coins tx.GasCoin with _ | coin <;> rfl
      · simp [hsym, hgc]


/-- A symbol that passes `BasicCheck` is not the base coin and has no record. -/
theorem BasicCheck_symbol_fresh (env : Env) (data : CreateCoinData) (context : StateDB)
    (hb : data.BasicCheck env context = none) :
    data.Symbol ≠ env.baseCoin ∧ context.GetStateCoin data.Symbol = none := by
  obtain ⟨_, _, _, _, _, _, hex, _⟩ := (BasicCheck_eq_none env data context).1 hb
  simp [StateDB.CoinExists, IsBaseCoin] at hex
  exact ⟨hex.1, hex.2⟩

/-! ## CreateCoin: conservation of the base coin -/

/-- C13: a successful execution (`isCheck = false`), with the base coin or a custom coin as
gas coin, conserves the base coin: the sum of the base-coin balances, of the coin reserves
(the reserve of the created coin included) and the reward pool is the same before and after,
over any accounts and symbols that include the sender, the new symbol and the gas coin, in a
state where the base coin has no record. The initial reserve leaves the sender's base
balance and is the reserve of the new coin; the commission in base coin leaves the sender's
base balance (base gas coin) or the reserve of the gas coin, and is added to the pool. -/
theorem Run_conserves_base (env : Env) (data : CreateCoinData) (tx : Transaction)
    (context : StateDB) (rewardPool : Int) (response : Response) (context' : StateDB)
    (rewardPool' : Int) (addrs : Finset Address) (symbols : Finset CoinSymbol)
    (h : data.Run env tx context false rewardPool = some (response, context', rewardPool'))
    (hok : response.Code = Code.OK)
    (hwf : context.GetStateCoin env.baseCoin = none)
    (hsender : tx.sender ∈ addrs) (hsym : data.Symbol ∈ symbols)
    (hgas : tx.GasCoin ∈ symbols) :
    totalBase env context' addrs symbols rewardPool'
      = totalBase env context addrs symbols rewardPool ∧
    (∃ r : Int, data.InitialReserve = some r ∧
      context.reserveOf data.Symbol = 0 ∧ context'.reserveOf data.Symbol = r ∧
      rewardPool' = rewardPool + commissionInBaseCoin env data tx ∧
      (tx.GasCoin = env.baseCoin →
        context'.GetBalance tx.sender env.baseCoin
          = context.GetBalance tx.sender env.baseCoin - r - commissionInBaseCoin env data tx) ∧
      (tx.GasCoin ≠ env.baseCoin →
        context'.GetBalance tx.sender env.baseCoin
          = context.GetBalance tx.sender env.baseCoin - r ∧
        context'.reserveOf tx.GasCoin
          = context.reserveOf tx.GasCoin - commissionInBaseCoin env data tx)) := by
  obtain ⟨a, r, commission, hb, ha, hr, hstep, -, -, -, hbal, hcoins, hpool⟩ :=
    Run_exec_effect env data tx context rewardPool response context' rewardPool' h hok
  obtain ⟨hsymbase, hsymnone⟩ := BasicCheck_symbol_fresh env data context hb
  have hgsym : tx.GasCoin ≠ data.Symbol := by
    rcases hstep with ⟨hg, -⟩ | ⟨-, coin, hc, -, -⟩
    · rw [hg]; exact Ne.symm hsymbase
    · intro heq
      rw [heq, hsymnone] at hc
      exact absurd hc (by simp)
  have hbal' : ∀ addr, context'.GetBalance addr env.baseCoin
      = context.GetBalance addr env.baseCoin
        - (if addr = tx.sender then
            r + (if tx.GasCoin = env.baseCoin then commissionInBaseCoin env data tx else 0)
          else 0) := by
    intro addr
    rw [hbal addr env.baseCoin]
    rcases hstep with ⟨hg, hcom⟩ | ⟨hg, -⟩
    · subst hcom
      by_cases hs : addr = tx.sender
      · simp [hs, hg, Ne.symm hsymbase]
        ring
      · simp [hs]
    · by_cases hs : addr = tx.sender
      · simp [hs, hg, Ne.symm hg, Ne.symm hsymbase]
      · simp [hs]
  have hres : ∀ c, context'.reserveOf c
      = context.reserveOf c + (if c = data.Symbol then r else 0)
        - (if c = tx.GasCoin then
            (if tx.GasCoin = env.baseCoin then 0 else commissionInBaseCoin env data tx)
          else 0) := by
    intro c
    have hc' := hcoins c
    simp only [StateDB.GetStateCoin] at hc' hsymnone hwf
    unfold StateDB.reserveOf
    rw [hc']
    by_cases hcs : c = data.Symbol
    · subst hcs
      simp [hsymnone, Ne.symm hgsym]
    · by_cases hcg : c = tx.GasCoin
      · rw [if_neg hcs, if_pos hcg, if_neg hcs, if_pos hcg]
        by_cases hg : tx.GasCoin = env.baseCoin
        · rw [if_pos hg, hcg, hg, hwf]
          simp
        · rw [if_neg hg]
          rcases hstep with ⟨hg', -⟩ | ⟨-, coin, hc, -, -⟩
          · exact absurd hg' hg
          · simp only [StateDB.GetStateCoin] at hc
            rw [hcg, hc]
            simp
      · simp [hcs, hcg]
  refine ⟨?_, r, hr, ?_, ?_, hpool, ?_, ?_⟩
  · unfold totalBase
    simp only [hbal', hres, Finset.sum_sub_distrib, Finset.sum_add_distrib,
      Finset.sum_ite_eq', hsender, hsym, hgas, if_true]
    rw [hpool]
    by_cases hg : tx.GasCoin = env.baseCoin
    · simp only [hg, if_true]
      ring
    · simp only [hg, if_false]
      ring
  · simp only [StateDB.GetStateCoin] at hsymnone
    simp [StateDB.reserveOf, hsymnone]
  · rw [hres]
    simp only [StateDB.GetStateCoin] at hsymnone
    simp [StateDB.reserveOf, hsymnone, Ne.symm hgsym]
  · intro hg
    rw [hbal', if_pos rfl, if_pos hg]
    ring
  · intro hg
    refine ⟨?_, ?_⟩
    · rw [hbal', if_pos rfl, if_neg hg]
      ring
    · rw [hres, if_neg hgsym, if_pos rfl, if_neg hg]
      ring


/-- The execution of the test transaction paying in `GASCOIN` answers `OK`. -/
theorem Run_gas_scenario_code :
    (testData.Run testEnv gasTx gasState false 0).map (fun out => out.1.Code)
      = some Code.OK := by
  decide

/-- The base coin has no record in the state with `GASCOIN`. -/
theorem gasState_base : gasState.GetStateCoin testEnv.baseCoin = none := by
  decide

/-- The one record of the state with `GASCOIN`. -/
theorem gasState_coin (c : CoinSymbol) (coin : Coin) (h : gasState.GetStateCoin c = some coin) :
    c = gasSymbol ∧ coin = { Name := [71, 97, 115], Volume := NoahToQNoah 1000, Crr := 100,
                             ReserveBalance := NoahToQNoah 1000 } := by
  simp only [StateDB.GetStateCoin, gasState] at h
  split_ifs at h with hc
  simp only [Option.some.injEq] at h
  exact ⟨hc, h.symm⟩

/-- The conservation of the base coin in the execution paying in `GASCOIN`. -/
theorem Run_conserves_base_witness :
    ∃ response context' rewardPool',
      testData.Run testEnv gasTx gasState false 0 = some (response, context', rewardPool') ∧
      response.Code = Code.OK ∧
      totalBase testEnv context' {testAddr} {testSymbol, gasSymbol} rewardPool'
        = totalBase testEnv gasState {testAddr} {testSymbol, gasSymbol} 0 := by
  have hcode := Run_gas_scenario_code
  rcases hrun : testData.Run testEnv gasTx gasState false 0 with
    _ | ⟨response, context', rewardPool'⟩
  · rw [hrun] at hcode
    exact absurd hcode (by simp)
  · rw [hrun] at hcode
    have hok : response.Code = Code.OK := by simpa using hcode
    exact ⟨response, context', rewardPool', rfl, hok,
      (Run_conserves_base testEnv testData gasTx gasState 0 response context' rewardPool'
        {testAddr} {testSymbol, gasSymbol} hrun hok gasState_base (by decide) (by decide)
        (by decide)).1⟩

/-! ## CreateCoin: the invariant of the coin records -/

/-- C14 on the state with `GASCOIN` (volume and reserve 1000 coins, crr 100, the sender
holding the whole volume): every record has volume at least 1 coin, reserve at least 0 and
crr within 10..100; the execution paying in `GASCOIN` answers `OK` and leaves the record of
`GASCOIN` with the volume 0, below 1 coin. -/
theorem Run_gas_coin_volume_zero :
    (∀ c coin, gasState.GetStateCoin c = some coin →
      10 ^ 18 ≤ coin.Volume ∧ 0 ≤ coin.ReserveBalance ∧ 10 ≤ coin.Crr ∧ coin.Crr ≤ 100) ∧
    gasState.GetStateCoin testEnv.baseCoin = none ∧
    (testData.Run testEnv gasTx gasState false 0).map
        (fun out => (out.1.Code, (out.2.1.GetStateCoin gasSymbol).map Coin.Volume))
      = some (Code.OK, some 0) ∧
    ¬ ((10 : Int) ^ 18 ≤ 0) := by
  refine ⟨fun c coin h => ?_, by decide, by decide, by decide⟩
  obtain ⟨-, hcoin⟩ := gasState_coin c coin h
  subst hcoin
  decide

/-- C14, amended: in a state where the base coin has no record and every coin record has
volume at least 1 coin, reserve at least 0 and crr within 10..100, after any `Run` (any gas
coin, any outcome) every coin record has reserve at least 0 and crr within 10..100, every
record other than that of the gas coin, the created coin included, has volume at least
1 coin, and every coin that existed before has its crr unchanged, and its whole record
unchanged when it is not the gas coin. No check keeps the volume of the gas coin, reduced
by the commission, at 1 coin or more. -/
theorem Run_coin_invariant (env : Env) (data : CreateCoinData) (tx : Transaction)
    (context : StateDB) (isCheck : Bool) (rewardPool : Int) (response : Response)
    (context' : StateDB) (rewardPool' : Int)
    (h : data.Run env tx context isCheck rewardPool = some (response, context', rewardPool'))
    (hwf : context.GetStateCoin env.baseCoin = none)
    (hinv : ∀ c coin, context.GetStateCoin c = some coin →
      10 ^ 18 ≤ coin.Volume ∧ 0 ≤ coin.ReserveBalance ∧ 10 ≤ coin.Crr ∧ coin.Crr ≤ 100) :
    ∀ c coin', context'.GetStateCoin c = some coin' →
      0 ≤ coin'.ReserveBalance ∧ 10 ≤ coin'.Crr ∧ coin'.Crr ≤ 100 ∧
      (c ≠ tx.GasCoin → 10 ^ 18 ≤ coin'.Volume) ∧
      (∀ coin, context.GetStateCoin c = some coin →
        coin'.Crr = coin.Crr ∧ (c ≠ tx.GasCoin → coin' = coin)) := by
  intro c coin' hc'
  rcases Run_unchanged_or_exec env data tx context isCheck rewardPool response context'
    rewardPool' h with ⟨hctx, -⟩ | ⟨hf, hok⟩
  · subst hctx
    obtain ⟨h1, h2, h3, h4⟩ := hinv c coin' hc'
    refine ⟨h2, h3, h4, fun _ => h1, fun coin hc => ?_⟩
    rw [hc'] at hc
    simp only [Option.some.injEq] at hc
    subst hc
    exact ⟨rfl, fun _ => rfl⟩
  · subst hf
    obtain ⟨a, r, commission, hb, ha, hr, hstep, -, -, -, -, hcoins, -⟩ :=
      Run_exec_effect env data tx context rewardPool response context' rewardPool' h hok
    obtain ⟨-, hsymnone⟩ := BasicCheck_symbol_fresh env data context hb
    obtain ⟨a', r', ha', hr', -, -, -, hcrr1, hcrr2, hmin, -, hminr⟩ :=
      (BasicCheck_eq_none env data context).1 hb
    rw [ha] at ha'
    rw [hr] at hr'
    simp only [Option.some.injEq] at ha' hr'
    subst ha' hr'
    have hmin' : (10 : Int) ^ 18 ≤ a := by
      have : minCoinSupply = (10 : Int) ^ 18 := by unfold minCoinSupply NoahToQNoah; norm_num
      rw [← this]; exact hmin
    have hminr' : (0 : Int) ≤ r := by
      have : (0 : Int) ≤ minCoinReserve := by unfold minCoinReserve NoahToQNoah; norm_num
      omega
    rw [hcoins c] at hc'
    by_cases hcs : c = data.Symbol
    · rw [if_pos hcs] at hc'
      simp only [Option.some.injEq] at hc'
      subst hc'
      refine ⟨hminr', hcrr1, hcrr2, fun _ => hmin', fun coin hc => ?_⟩
      rw [hcs, hsymnone] at hc
      exact absurd hc (by simp)
    · rw [if_neg hcs] at hc'
      by_cases hcg : c = tx.GasCoin
      · rw [if_pos hcg] at hc'
        rcases hstep with ⟨hg, -⟩ | ⟨-, coin, hc, hle, -⟩
        · rw [hcg, hg, hwf] at hc'
          exact absurd hc' (by simp)
        · rw [hcg, hc] at hc'
          simp only [Option.map_some', Option.some.injEq] at hc'
          subst hc'
          obtain ⟨-, -, h3, h4⟩ := hinv tx.GasCoin coin hc
          refine ⟨by simp only; omega, h3, h4, fun hne => absurd hcg hne, fun coin2 hc2 => ?_⟩
          rw [hcg, hc] at hc2
          simp only [Option.some.injEq] at hc2
          subst hc2
          exact ⟨rfl, fun hne => absurd hcg hne⟩
      · rw [if_neg hcg] at hc'
        obtain ⟨h1, h2, h3, h4⟩ := hinv c coin' hc'
        refine ⟨h2, h3, h4, fun _ => h1, fun coin hc => ?_⟩
        rw [hc'] at hc
        simp only [Option.some.injEq] at hc
        subst hc
        exact ⟨rfl, fun _ => rfl⟩

/-- The records after the execution paying in `GASCOIN`: the created coin has volume
`100 * 10 ^ 18`, and the reserve of every record is at least 0. -/
theorem Run_coin_invariant_witness :
    ∃ response context' rewardPool',
      testData.Run testEnv gasTx gasState false 0 = some (response, context', rewardPool') ∧
      response.Code = Code.OK ∧
      ∀ c coin', context'.GetStateCoin c = some coin' →
        0 ≤ coin'.ReserveBalance ∧ 10 ≤ coin'.Crr ∧ coin'.Crr ≤ 100 ∧
        (c ≠ gasTx.GasCoin → 10 ^ 18 ≤ coin'.Volume) ∧
        (∀ coin, gasState.GetStateCoin c = some coin →
          coin'.Crr = coin.Crr ∧ (c ≠ gasTx.GasCoin → coin' = coin)) := by
  have hcode := Run_gas_scenario_code
  rcases hrun : testData.Run testEnv gasTx gasState false 0 with
    _ | ⟨response, context', rewardPool'⟩
  · rw [hrun] at hcode
    exact absurd hcode (by simp)
  · rw [hrun] at hcode
    have hok : response.Code = Code.OK := by simpa using hcode
    refine ⟨response, context', rewardPool', rfl, hok, ?_⟩
    refine Run_coin_invariant testEnv testData gasTx gasState false 0 response context'
      rewardPool' hrun gasState_base (fun c coin hc => ?_)
    obtain ⟨-, hcoin⟩ := gasState_coin c coin hc
    subst hcoin
    decide


/-! ## CreateCoin: the commission on the coin records, and the debits -/

/-- C15: after a successful execution (`isCheck = false`), in a state where the base coin
has no record: with a gas coin other than the base coin, the reserve of the gas coin has
gone down by the commission in base coin, its volume by the commission
`CalculateSaleAmount(volume, reserve, crr, commission in base coin)` computed on the record
before, and the sender's balance of the gas coin by that same commission; with the base
coin as gas coin, every coin record that existed before is unchanged. The commission in
base coin is the one `Run` computes, `gas_price * Gas() * CommissionMultiplier` for a gas
price below `2 ^ 63`. -/
theorem Run_exec_commission_accounting (env : Env) (data : CreateCoinData) (tx : Transaction)
    (context : StateDB) (rewardPool : Int) (response : Response) (context' : StateDB)
    (rewardPool' : Int)
    (h : data.Run env tx context false rewardPool = some (response, context', rewardPool'))
    (hok : response.Code = Code.OK)
    (hwf : context.GetStateCoin env.baseCoin = none) :
    (tx.GasCoin ≠ env.baseCoin →
      ∃ (coin : Coin) (commission : Int),
        context.GetStateCoin tx.GasCoin = some coin ∧
        commission = env.CalculateSaleAmount coin.Volume coin.ReserveBalance coin.Crr
          (commissionInBaseCoin env data tx) ∧
        context'.GetStateCoin tx.GasCoin
          = some { coin with
              ReserveBalance := coin.ReserveBalance - commissionInBaseCoin env data tx,
              Volume := coin.Volume - commission } ∧
        context'.GetBalance tx.sender tx.GasCoin
          = context.GetBalance tx.sender tx.GasCoin - commission) ∧
    (tx.GasCoin = env.baseCoin →
      ∀ c coin, context.GetStateCoin c = some coin → context'.GetStateCoin c = some coin) ∧
    (tx.GasPrice < 2 ^ 63 →
      commissionInBaseCoin env data tx
        = (tx.GasPrice : Int) * data.Gas env * env.CommissionMultiplier) := by
  obtain ⟨a, r, commission, hb, ha, hr, hstep, -, -, -, hbal, hcoins, -⟩ :=
    Run_exec_effect env data tx context rewardPool response context' rewardPool' h hok
  obtain ⟨-, hsymnone⟩ := BasicCheck_symbol_fresh env data context hb
  refine ⟨fun hg => ?_, fun hg c coin hc => ?_, commissionInBaseCoin_of_lt env data tx⟩
  · rcases hstep with ⟨hg', -⟩ | ⟨-, coin, hc, -, hcom⟩
    · exact absurd hg' hg
    · have hgsym : tx.GasCoin ≠ data.Symbol := by
        intro heq
        rw [heq, hsymnone] at hc
        exact absurd hc (by simp)
      refine ⟨coin, commission, hc, hcom, ?_, ?_⟩
      · rw [hcoins, if_neg hgsym, if_pos rfl, hc]
        rfl
      · rw [hbal]
        simp [hg, hgsym]
  · have hcs : c ≠ data.Symbol := by
      intro heq
      rw [heq, hsymnone] at hc
      exact absurd hc (by simp)
    have hcg : c ≠ tx.GasCoin := by
      intro heq
      rw [heq, hg, hwf] at hc
      exact absurd hc (by simp)
    rw [hcoins, if_neg hcs, if_neg hcg, hc]

/-- The record of `GASCOIN` and the sender's balance of it after the execution paying in
`GASCOIN`. -/
theorem Run_exec_commission_accounting_witness :
    ∃ response context' rewardPool',
      testData.Run testEnv gasTx gasState false 0 = some (response, context', rewardPool') ∧
      response.Code = Code.OK ∧
      ∃ (coin : Coin) (commission : Int),
        gasState.GetStateCoin gasTx.GasCoin = some coin ∧
        commission = testEnv.CalculateSaleAmount coin.Volume coin.ReserveBalance coin.Crr
          (commissionInBaseCoin testEnv testData gasTx) ∧
        context'.GetStateCoin gasTx.GasCoin
          = some { coin with
              ReserveBalance := coin.ReserveBalance - commissionInBaseCoin testEnv testData gasTx,
              Volume := coin.Volume - commission } ∧
        context'.GetBalance gasTx.sender gasTx.GasCoin
          = gasState.GetBalance gasTx.sender gasTx.GasCoin - commission := by
  have hcode := Run_gas_scenario_code
  rcases hrun : testData.Run testEnv gasTx gasState false 0 with
    _ | ⟨response, context', rewardPool'⟩
  · rw [hrun] at hcode
    exact absurd hcode (by simp)
  · rw [hrun] at hcode
    have hok : response.Code = Code.OK := by simpa using hcode
    exact ⟨response, context', rewardPool', rfl, hok,
      (Run_exec_commission_accounting testEnv testData gasTx gasState 0 response context'
        rewardPool' hrun hok gasState_base).1 (by decide)⟩

/-- A check returns a response when the gas coin is the base coin or has a record. -/
theorem Run_check_isSome (env : Env) (data : CreateCoinData) (tx : Transaction)
    (context : StateDB) (rewardPool : Int)
    (hgas : tx.GasCoin = env.baseCoin ∨ (context.GetStateCoin tx.GasCoin).isSome = true) :
    (data.Run env tx context true rewardPool).isSome = true := by
  rcases hb : data.BasicCheck env context with _ | resp
  swap
  · unfold CreateCoinData.Run
    rw [hb]
    rfl
  obtain ⟨a, r, ha, hr, -⟩ := (BasicCheck_eq_none env data context).1 hb
  unfold CreateCoinData.Run
  rw [hb]
  simp only [IsBaseCoin, StateDB.GetBalance, decide_eq_true_eq, ha, hr, if_true]
  by_cases hg : tx.GasCoin = env.baseCoin
  · simp only [hg, ne_eq, not_true_eq_false, if_false, true_and]
    split_ifs <;> rfl
  · simp only [hg, ne_eq, not_false_eq_true, if_true, false_and, if_false]
    rcases hgas with hg' | hsome
    · exact absurd hg' hg
    · rcases hc : context.GetStateCoin tx.GasCoin with _ | coin
      · rw [hc] at hsome
        exact absurd hsome (by simp)
      · simp only
        by_cases h0 : coin.ReserveBalance
            < toInt64 tx.GasPrice * data.Gas env * env.CommissionMultiplier
        · simp only [h0, if_true]
          rfl
        · simp only [h0, if_false]
          split_ifs <;> rfl

/-- C16: no check/run mismatch. In a state where the gas coin is the base coin or has a
record, `Run` with `isCheck = false` returns a response: neither `SubBalance` aborts. When
moreover no balance of a coin exceeds the volume of that coin and the execution answers
`OK`, every subtraction is covered: the sender's base-coin balance is at least the initial
reserve at the first `SubBalance`; the sender's gas-coin balance, after that debit when the
gas coin is the base coin, is at least the commission at the second; the reserve of a gas
coin other than the base coin is at least the commission in base coin and its volume at
least the commission; so the balances of the sender and the reserve and volume of the gas
coin are at least 0 afterwards, and no balance that was at least 0 is below 0 afterwards. -/
theorem Run_no_underflow (env : Env) (data : CreateCoinData) (tx : Transaction)
    (context : StateDB) (rewardPool : Int)
    (hgas : tx.GasCoin = env.baseCoin ∨ (context.GetStateCoin tx.GasCoin).isSome = true)
    (hvol : ∀ addr c coin, context.GetStateCoin c = some coin →
      context.GetBalance addr c ≤ coin.Volume) :
    (data.Run env tx context false rewardPool).isSome = true ∧
    (∀ response context' rewardPool',
      data.Run env tx context false rewardPool = some (response, context', rewardPool') →
      response.Code = Code.OK →
      ∃ r commission : Int, data.InitialReserve = some r ∧
        r ≤ context.GetBalance tx.sender env.baseCoin ∧
        commission ≤ context.GetBalance tx.sender tx.GasCoin
          - (if tx.GasCoin = env.baseCoin then r else 0) ∧
        (tx.GasCoin = env.baseCoin → commission = commissionInBaseCoin env data tx) ∧
        (tx.GasCoin ≠ env.baseCoin →
          ∃ coin coin', context.GetStateCoin tx.GasCoin = some coin ∧
            commission = env.CalculateSaleAmount coin.Volume coin.ReserveBalance coin.Crr
              (commissionInBaseCoin env data tx) ∧
            commissionInBaseCoin env data tx ≤ coin.ReserveBalance ∧
            commission ≤ coin.Volume ∧
            context'.GetStateCoin tx.GasCoin = some coin' ∧
            0 ≤ coin'.ReserveBalance ∧ 0 ≤ coin'.Volume) ∧
        0 ≤ context'.GetBalance tx.sender env.baseCoin ∧
        0 ≤ context'.GetBalance tx.sender tx.GasCoin ∧
        (∀ addr c, 0 ≤ context.GetBalance addr c → 0 ≤ context'.GetBalance addr c)) := by
  refine ⟨?_, ?_⟩
  · have heq := Run_response_exec_eq_check env data tx context rewardPool
    have hsome := Run_check_isSome env data tx context rewardPool hgas
    rcases hrun : data.Run env tx context false rewardPool with _ | out
    · rw [hrun] at heq
      rcases hc : data.Run env tx context true rewardPool with _ | out'
      · rw [hc] at hsome
        exact absurd hsome (by simp)
      · rw [hc] at heq
        exact absurd heq (by simp)
    · rfl
  · intro response context' rewardPool' h hok
    obtain ⟨a, r, commission, hb, ha, hr, hstep, h1, h2, h3, hbal, hcoins, -⟩ :=
      Run_exec_effect env data tx context rewardPool response context' rewardPool' h hok
    obtain ⟨hsymbase, hsymnone⟩ := BasicCheck_symbol_fresh env data context hb
    obtain ⟨a', -, ha', -, -, -, -, -, -, hmin, -, -⟩ :=
      (BasicCheck_eq_none env data context).1 hb
    rw [ha] at ha'
    simp only [Option.some.injEq] at ha'
    subst ha'
    have ha0 : (0 : Int) ≤ a := by
      have : (0 : Int) ≤ minCoinSupply := by unfold minCoinSupply NoahToQNoah; norm_num
      omega
    have hgsym : tx.GasCoin ≠ data.Symbol := by
      rcases hstep with ⟨hg, -⟩ | ⟨-, coin, hc, -, -⟩
      · rw [hg]; exact Ne.symm hsymbase
      · intro heq
        rw [heq, hsymnone] at hc
        exact absurd hc (by simp)
    have hpost : ∀ addr c, context.GetBalance addr c
          - (if addr = tx.sender ∧ c = env.baseCoin then r else 0)
          - (if addr = tx.sender ∧ c = tx.GasCoin then commission else 0) ≤
        context'.GetBalance addr c := by
      intro addr c
      rw [hbal addr c]
      split_ifs <;> omega
    have hdebit : ∀ addr c, 0 ≤ context.GetBalance addr c →
        0 ≤ context.GetBalance addr c
          - (if addr = tx.sender ∧ c = env.baseCoin then r else 0)
          - (if addr = tx.sender ∧ c = tx.GasCoin then commission else 0) := by
      intro addr c h0
      by_cases hs : addr = tx.sender
      · subst hs
        by_cases hcb : c = env.baseCoin
        · subst hcb
          by_cases hg : tx.GasCoin = env.baseCoin
          · have := h3 hg
            simp only [hg, and_self, if_true]
            omega
          · simp only [Ne.symm hg, and_false, and_self, if_true, if_false]
            omega
        · by_cases hcg : c = tx.GasCoin
          · subst hcg
            simp only [hcb, and_false, and_self, if_true, if_false]
            omega
          · simp only [hcb, hcg, and_false, if_false]
            omega
      · simp only [hs, false_and, if_false]
        omega
    refine ⟨r, commission, hr, h2, ?_, ?_, ?_, ?_, ?_, ?_⟩
    · by_cases hg : tx.GasCoin = env.baseCoin
      · have := h3 hg
        rw [if_pos hg, hg]
        omega
      · rw [if_neg hg]
        omega
    · intro hg
      rcases hstep with ⟨-, hcom⟩ | ⟨hg', -⟩
      · exact hcom
      · exact absurd hg hg'
    · intro hg
      rcases hstep with ⟨hg', -⟩ | ⟨-, coin, hc, hle, hcom⟩
      · exact absurd hg' hg
      · have hv := hvol tx.sender tx.GasCoin coin hc
        refine ⟨coin, { coin with
            ReserveBalance := coin.ReserveBalance - commissionInBaseCoin env data tx,
            Volume := coin.Volume - commission }, hc, hcom, hle, by omega, ?_, ?_, ?_⟩
        · rw [hcoins, if_neg hgsym, if_pos rfl, hc]
          rfl
        · simp only
          omega
        · simp only
          omega
    · have hp := hpost tx.sender env.baseCoin
      by_cases hg : tx.GasCoin = env.baseCoin
      · have := h3 hg
        simp only [hg, and_self, if_true] at hp
        omega
      · simp only [Ne.symm hg, and_self, and_false, if_true, if_false] at hp
        omega
    · have hp := hpost tx.sender tx.GasCoin
      by_cases hg : tx.GasCoin = env.baseCoin
      · have := h3 hg
        rw [hg] at hp h1 ⊢
        simp only [and_self, if_true] at hp
        omega
      · simp only [hg, and_self, and_false, if_true, if_false] at hp
        omega
    · intro addr c h0
      have hd := hdebit addr c h0
      have hp := hpost addr c
      omega


/-- The hypotheses of `Run_no_underflow` hold in the state with `GASCOIN`, and the execution
paying in `GASCOIN` returns. -/
theorem Run_no_underflow_witness :
    (testData.Run testEnv gasTx gasState false 0).isSome = true :=
  (Run_no_underflow testEnv testData gasTx gasState 0 (Or.inr (by decide))
    (fun addr c coin hc => by
      obtain ⟨hsym, hcoin⟩ := gasState_coin c coin hc
      subst hsym hcoin
      have hne : gasSymbol ≠ testEnv.baseCoin := by decide
      simp only [StateDB.GetBalance, gasState, hne, and_false, if_false]
      split_ifs <;> decide)).1

/-! ## DeclareCandidacy -/

/-- C18: after a successful execution of DeclareCandidacy (`isCheck = false`, code `OK`)
with the base coin as gas coin and as stake coin, the sender's base-coin balance has gone
down by `stake + gas_price * 10000 * CommissionMultiplier`, and the candidate keyed by the
public key of the payload exists with the sender as owner, the address of the payload as
reward address, the commission of the payload, total stake in base coin 0 and status
`Offline`. -/
theorem DeclareCandidacy_exec (env : Env) (data : DeclareCandidacyData) (tx : Transaction)
    (context : CandidateState) (rewardPool : Int) (code : CandidacyCode)
    (context' : CandidateState) (rewardPool' : Int)
    (h : data.Run env tx context false rewardPool = some (code, context', rewardPool'))
    (hok : code = CandidacyCode.OK)
    (hg : tx.GasCoin = env.baseCoin) (hcoin : data.Coin = env.baseCoin) :
    context'.db.GetBalance tx.sender env.baseCoin
      = context.db.GetBalance tx.sender env.baseCoin
        - (data.Stake + (tx.GasPrice : Int) * 10000 * env.CommissionMultiplier) ∧
    ∃ candidate, context'.GetStateCandidate data.PubKey = some candidate ∧
      candidate.OwnerAddress = tx.sender ∧ candidate.RewardAddress = data.Address ∧
      candidate.Commission = data.Commission ∧ candidate.TotalNoahStake = 0 ∧
      candidate.Status = CandidateStatus.Offline := by
  subst hok
  unfold DeclareCandidacyData.Run at h
  simp only [hg, hcoin, ne_eq, not_true_eq_false, if_false, Bool.false_eq_true,
    DeclareCandidacyData.Gas] at h
  split_ifs at h with h1 h2
  · exact absurd h (by simp)
  · exact absurd h (by simp)
  · split at h
    · exact absurd h (by simp)
    · rename_i s1 hs1
      split at h
      · exact absurd h (by simp)
      · rename_i s2 hs2
        simp only [Option.some.injEq, Prod.mk.injEq, true_and] at h
        obtain ⟨hb1, -, -⟩ := StateDB.SubBalance_some s1 hs1
        obtain ⟨hb2, -, -⟩ := StateDB.SubBalance_some s2 hs2
        rw [StateDB.SubCoinVolume_balances, StateDB.SubCoinReserve_balances] at hb1
        rw [← h.1]
        refine ⟨?_, Candidate.mk data.PubKey tx.sender data.Address data.Commission
          env.baseCoin data.Stake 0 CandidateStatus.Offline, ?_, rfl, rfl, rfl, rfl, rfl⟩
        · simp only [StateDB.GetBalance, StateDB.SetNonce, CandidateState.CreateCandidate,
            hb1, hb2, and_self, if_true]
          ring
        · simp [CandidateState.GetStateCandidate, CandidateState.CreateCandidate]

/-- The scenario of `TestDeclareCandidacyTx`: balance 1000000 coins, stake 100 coins,
commission 10, gas price 1, commission multiplier `10 ^ 15`: the sender is left
`999890 * 10 ^ 18`. -/
theorem DeclareCandidacy_exec_witness :
    ∃ code context' rewardPool',
      testCandidacy.Run testEnv testTx testCandidateState false 0
        = some (code, context', rewardPool') ∧
      code = CandidacyCode.OK ∧
      context'.db.GetBalance testAddr testEnv.baseCoin = 999890 * 10 ^ 18 := by
  have hcode : (testCandidacy.Run testEnv testTx testCandidateState false 0).map
      (fun out => out.1) = some CandidacyCode.OK := by decide
  rcases hrun : testCandidacy.Run testEnv testTx testCandidateState false 0 with
    _ | ⟨code, context', rewardPool'⟩
  · rw [hrun] at hcode
    exact absurd hcode (by simp)
  · rw [hrun] at hcode
    have hok : code = CandidacyCode.OK := by simpa using hcode
    have hbal := (DeclareCandidacy_exec testEnv testCandidacy testTx testCandidateState 0
      code context' rewardPool' hrun hok rfl rfl).1
    refine ⟨code, context', rewardPool', rfl, hok, ?_⟩
    have hexp : testCandidateState.db.GetBalance testTx.sender testEnv.baseCoin
        - (testCandidacy.Stake + (testTx.GasPrice : Int) * 10000
          * testEnv.CommissionMultiplier) = 999890 * 10 ^ 18 := by decide
    rw [← hexp]
    exact hbal


/-! ## CreateCoin: code, balances, reward pool and nonce for the gas prices of a transaction

The gas price of a transaction is a `uint32`; the theorems below hold for every gas price
below `2 ^ 63`, where `int64(tx.GasPrice)` is the gas price itself. -/

/-- A run returns a response when the gas coin is the base coin or has a record. -/
theorem Run_isSome (env : Env) (data : CreateCoinData) (tx : Transaction)
    (context : StateDB) (isCheck : Bool) (rewardPool : Int)
    (hgas : tx.GasCoin = env.baseCoin ∨ (context.GetStateCoin tx.GasCoin).isSome = true) :
    (data.Run env tx context isCheck rewardPool).isSome = true := by
  cases isCheck
  · have heq := Run_response_exec_eq_check env data tx context rewardPool
    have hsome := Run_check_isSome env data tx context rewardPool hgas
    rcases hrun : data.Run env tx context false rewardPool with _ | out
    · rw [hrun] at heq
      rcases hc : data.Run env tx context true rewardPool with _ | out'
      · rw [hc] at hsome
        exact absurd hsome (by simp)
      · rw [hc] at heq
        exact absurd heq (by simp)
    · rfl
  · exact Run_check_isSome env data tx context rewardPool hgas

/-- The gas of a payload is positive. -/
theorem Gas_pos (env : Env) (data : CreateCoinData) : 0 < data.Gas env := by
  rw [Gas_eq]
  split_ifs <;> norm_num

/-- C7: for every transaction (gas price below `2 ^ 63`, as every `uint32` is) and state in
which the gas coin is the base coin or has a record, `Run` returns a response, and with
`commission_base = gas_price * Gas() * CommissionMultiplier` its code is: the code of
`BasicCheck` when that fails; else `CoinReserveNotSufficient` when the gas coin is not the
base coin and its reserve is below `commission_base`; else, with the commission
`commission_base` for the base coin and `CalculateSaleAmount(volume, reserve, crr,
commission_base)` for another gas coin, `InsufficientFunds` when the sender's gas-coin
balance is below the commission, or the base-coin balance below the initial reserve, or,
for the base gas coin, below the initial reserve plus the commission; else `OK`. No other
code is returned. -/
theorem Run_code_decided (env : Env) (data : CreateCoinData) (tx : Transaction)
    (context : StateDB) (isCheck : Bool) (rewardPool : Int)
    (hgp : tx.GasPrice < 2 ^ 63)
    (hgas : tx.GasCoin = env.baseCoin ∨ (context.GetStateCoin tx.GasCoin).isSome = true) :
    (∃ c, (data.Run env tx context isCheck rewardPool).map (fun out => out.1.Code) = some c) ∧
    (∀ resp, data.BasicCheck env context = some resp →
      (data.Run env tx context isCheck rewardPool).map (fun out => out.1.Code)
        = some resp.Code) ∧
    (data.BasicCheck env context = none →
      (∀ coin, tx.GasCoin ≠ env.baseCoin → context.GetStateCoin tx.GasCoin = some coin →
        coin.ReserveBalance < (tx.GasPrice : Int) * data.Gas env * env.CommissionMultiplier →
        (data.Run env tx context isCheck rewardPool).map (fun out => out.1.Code)
          = some Code.CoinReserveNotSufficient) ∧
      (∀ r commission : Int, data.InitialReserve = some r →
        ((tx.GasCoin = env.baseCoin ∧
            commission = (tx.GasPrice : Int) * data.Gas env * env.CommissionMultiplier) ∨
          (tx.GasCoin ≠ env.baseCoin ∧ ∃ coin, context.GetStateCoin tx.GasCoin = some coin ∧
            (tx.GasPrice : Int) * data.Gas env * env.CommissionMultiplier
              ≤ coin.ReserveBalance ∧
            commission = env.CalculateSaleAmount coin.Volume coin.ReserveBalance coin.Crr
              ((tx.GasPrice : Int) * data.Gas env * env.CommissionMultiplier))) →
        ((context.GetBalance tx.sender tx.GasCoin < commission ∨
            context.GetBalance tx.sender env.baseCoin < r ∨
            (tx.GasCoin = env.baseCoin ∧
              context.GetBalance tx.sender env.baseCoin < r + commission)) →
          (data.Run env tx context isCheck rewardPool).map (fun out => out.1.Code)
            = some Code.InsufficientFunds) ∧
        (¬ (context.GetBalance tx.sender tx.GasCoin < commission ∨
            context.GetBalance tx.sender env.baseCoin < r ∨
            (tx.GasCoin = env.baseCoin ∧
              context.GetBalance tx.sender env.baseCoin < r + commission)) →
          (data.Run env tx context isCheck rewardPool).map (fun out => out.1.Code)
            = some Code.OK))) ∧
    (∀ c, (data.Run env tx context isCheck rewardPool).map (fun out => out.1.Code) = some c →
      c = Code.OK ∨ c = Code.InsufficientFunds ∨ c = Code.CoinReserveNotSufficient ∨
        ∃ resp, data.BasicCheck env context = some resp ∧ c = resp.Code) := by
  have ht := Run_code_table env data tx context isCheck rewardPool
  simp only [commissionInBaseCoin_of_lt env data tx hgp] at ht
  have hfin : ∀ r commission : Int, data.BasicCheck env context = none →
      data.InitialReserve = some r →
      ((tx.GasCoin = env.baseCoin ∧
          commission = (tx.GasPrice : Int) * data.Gas env * env.CommissionMultiplier) ∨
        (tx.GasCoin ≠ env.baseCoin ∧ ∃ coin, context.GetStateCoin tx.GasCoin = some coin ∧
          (tx.GasPrice : Int) * data.Gas env * env.CommissionMultiplier
            ≤ coin.ReserveBalance ∧
          commission = env.CalculateSaleAmount coin.Volume coin.ReserveBalance coin.Crr
            ((tx.GasPrice : Int) * data.Gas env * env.CommissionMultiplier))) →
      ((context.GetBalance tx.sender tx.GasCoin < commission ∨
          context.GetBalance tx.sender env.baseCoin < r ∨
          (tx.GasCoin = env.baseCoin ∧
            context.GetBalance tx.sender env.baseCoin < r + commission)) →
        (data.Run env tx context isCheck rewardPool).map (fun out => out.1.Code)
          = some Code.InsufficientFunds) ∧
      (¬ (context.GetBalance tx.sender tx.GasCoin < commission ∨
          context.GetBalance tx.sender env.baseCoin < r ∨
          (tx.GasCoin = env.baseCoin ∧
            context.GetBalance tx.sender env.baseCoin < r + commission)) →
        (data.Run env tx context isCheck rewardPool).map (fun out => out.1.Code)
          = some Code.OK) := by
    intro r commission hb hr hstep
    obtain ⟨hins, hokc⟩ := (ht.2 hb).2 r commission hr hstep
    refine ⟨hins, fun hno => ?_⟩
    apply hokc
    · by_contra hh
      exact hno (Or.inl (by omega))
    · by_contra hh
      exact hno (Or.inr (Or.inl (by omega)))
    · intro hg
      by_contra hh
      exact hno (Or.inr (Or.inr ⟨hg, by omega⟩))
  refine ⟨?_, ht.1, fun hb => ⟨(ht.2 hb).1, fun r commission hr hstep =>
    hfin r commission hb hr hstep⟩, ?_⟩
  · have hsome := Run_isSome env data tx context isCheck rewardPool hgas
    rcases hrun : data.Run env tx context isCheck rewardPool with _ | out
    · rw [hrun] at hsome
      exact absurd hsome (by simp)
    · exact ⟨out.1.Code, rfl⟩
  · intro c hc
    rcases hb : data.BasicCheck env context with _ | resp
    swap
    · rw [ht.1 resp hb] at hc
      simp only [Option.some.injEq] at hc
      exact Or.inr (Or.inr (Or.inr ⟨resp, rfl, hc.symm⟩))
    obtain ⟨a, r, -, hr, -⟩ := (BasicCheck_eq_none env data context).1 hb
    have hdecide : ∀ commission : Int,
        ((tx.GasCoin = env.baseCoin ∧
            commission = (tx.GasPrice : Int) * data.Gas env * env.CommissionMultiplier) ∨
          (tx.GasCoin ≠ env.baseCoin ∧ ∃ coin, context.GetStateCoin tx.GasCoin = some coin ∧
            (tx.GasPrice : Int) * data.Gas env * env.CommissionMultiplier
              ≤ coin.ReserveBalance ∧
            commission = env.CalculateSaleAmount coin.Volume coin.ReserveBalance coin.Crr
              ((tx.GasPrice : Int) * data.Gas env * env.CommissionMultiplier))) →
        c = Code.OK ∨ c = Code.InsufficientFunds := by
      intro commission hstep
      obtain ⟨hins, hokc⟩ := hfin r commission hb hr hstep
      by_cases hcase : context.GetBalance tx.sender tx.GasCoin < commission ∨
          context.GetBalance tx.sender env.baseCoin < r ∨
          (tx.GasCoin = env.baseCoin ∧
            context.GetBalance tx.sender env.baseCoin < r + commission)
      · rw [hins hcase] at hc
        simp only [Option.some.injEq] at hc
        exact Or.inr hc.symm
      · rw [hokc hcase] at hc
        simp only [Option.some.injEq] at hc
        exact Or.inl hc.symm
    by_cases hg : tx.GasCoin = env.baseCoin
    · rcases hdecide _ (Or.inl ⟨hg, rfl⟩) with h1 | h1
      · exact Or.inl h1
      · exact Or.inr (Or.inl h1)
    · rcases hgas with hg' | hsome
      · exact absurd hg' hg
      · rcases hcoin : context.GetStateCoin tx.GasCoin with _ | coin
        · rw [hcoin] at hsome
          exact absurd hsome (by simp)
        · by_cases hres : coin.ReserveBalance
              < (tx.GasPrice : Int) * data.Gas env * env.CommissionMultiplier
          · rw [(ht.2 hb).1 coin hg hcoin hres] at hc
            simp only [Option.some.injEq] at hc
            exact Or.inr (Or.inr (Or.inl hc.symm))
          · rcases hdecide _ (Or.inr ⟨hg, coin, hcoin, by omega, rfl⟩) with h1 | h1
            · exact Or.inl h1
            · exact Or.inr (Or.inl h1)

/-- The test transaction with the largest gas price of a `uint32`: the commission
`(2 ^ 32 - 1) * 10 ^ 21` exceeds the sender's balance, the code is `InsufficientFunds`. -/
theorem Run_code_decided_witness :
    (testData.Run testEnv maxGasPriceTx testState false 0).map (fun out => out.1.Code)
      = some Code.InsufficientFunds :=
  ((((Run_code_decided testEnv testData maxGasPriceTx testState false 0 (by decide)
    (Or.inl rfl)).2.2.1 (by decide)).2 (NoahToQNoah 1000)
    ((maxGasPriceTx.GasPrice : Int) * testData.Gas testEnv * testEnv.CommissionMultiplier)
    rfl (Or.inl ⟨rfl, rfl⟩)).1 (Or.inl (by decide)))

/-- C9: after a successful execution (code `OK`, `isCheck = false`) with the base coin as
gas coin (gas price below `2 ^ 63`, as every `uint32` is), the sender's base-coin balance is
the one before minus the initial reserve minus `gas_price * Gas() * CommissionMultiplier`,
the sender's balance of the new symbol is the one before plus the initial amount, and no
other balance changes: none of another account, and none of the sender in another coin. -/
theorem Run_exec_sender_balance (env : Env) (data : CreateCoinData) (tx : Transaction)
    (context : StateDB) (rewardPool : Int) (response : Response) (context' : StateDB)
    (rewardPool' : Int)
    (h : data.Run env tx context false rewardPool = some (response, context', rewardPool'))
    (hok : response.Code = Code.OK) (hg : tx.GasCoin = env.baseCoin)
    (hgp : tx.GasPrice < 2 ^ 63) :
    ∃ a r : Int, data.InitialAmount = some a ∧ data.InitialReserve = some r ∧
      context'.GetBalance tx.sender env.baseCoin
        = context.GetBalance tx.sender env.baseCoin - r
          - (tx.GasPrice : Int) * data.Gas env * env.CommissionMultiplier ∧
      context'.GetBalance tx.sender data.Symbol
        = context.GetBalance tx.sender data.Symbol + a ∧
      (∀ addr coin, addr ≠ tx.sender →
        context'.GetBalance addr coin = context.GetBalance addr coin) ∧
      (∀ coin, coin ≠ env.baseCoin → coin ≠ data.Symbol →
        context'.GetBalance tx.sender coin = context.GetBalance tx.sender coin) := by
  obtain ⟨a, r, ha, hr, h1, h2, h3⟩ := Run_exec_balances_base env data tx context rewardPool
    response context' rewardPool' h hok hg
  rw [commissionInBaseCoin_of_lt env data tx hgp] at h1
  refine ⟨a, r, ha, hr, h1, h2, fun addr coin hne => ?_, fun coin hc1 hc2 => ?_⟩
  · exact h3 addr coin (fun hh => hne hh.1)
  · exact h3 tx.sender coin (fun hh => hh.2.elim hc1 hc2)

/-- The scenario of `TestCreateCoinTx`: balance 1000000 coins, symbol `ABCDEF`, initial
reserve 1000 coins, gas price 1: the sender is left `998000 * 10 ^ 18`. -/
theorem Run_exec_sender_balance_witness :
    ∃ response context' rewardPool',
      testData.Run testEnv testTx testState false 0 = some (response, context', rewardPool') ∧
      response.Code = Code.OK ∧
      context'.GetBalance testAddr testEnv.baseCoin = 998000 * 10 ^ 18 := by
  have hcode : (testData.Run testEnv testTx testState false 0).map (fun out => out.1.Code)
      = some Code.OK := by decide
  rcases hrun : testData.Run testEnv testTx testState false 0 with
    _ | ⟨response, context', rewardPool'⟩
  · rw [hrun] at hcode
    exact absurd hcode (by simp)
  · rw [hrun] at hcode
    have hok : response.Code = Code.OK := by simpa using hcode
    obtain ⟨a, r, -, hr, hbal, -⟩ := Run_exec_sender_balance testEnv testData testTx testState 0
      response context' rewardPool' hrun hok rfl (by decide)
    have hr' : r = NoahToQNoah 1000 := by
      have : some (NoahToQNoah 1000) = some r := hr
      simpa using this.symm
    subst hr'
    refine ⟨response, context', rewardPool', rfl, hok, ?_⟩
    have hexp : testState.GetBalance testTx.sender testEnv.baseCoin - NoahToQNoah 1000
        - (testTx.GasPrice : Int) * testData.Gas testEnv * testEnv.CommissionMultiplier
        = 998000 * 10 ^ 18 := by decide
    rw [← hexp]
    exact hbal

/-- C11: after a successful execution (code `OK`, `isCheck = false`), with the base coin or
a custom coin as gas coin, for every gas price of a transaction (below `2 ^ 63`, as every
`uint32` is), the reward pool has grown by exactly
`commission_base = gas_price * Gas() * CommissionMultiplier`; with a commission multiplier
that is not negative, the reward pool has not decreased. -/
theorem Run_exec_pool (env : Env) (data : CreateCoinData) (tx : Transaction)
    (context : StateDB) (rewardPool : Int) (response : Response) (context' : StateDB)
    (rewardPool' : Int)
    (h : data.Run env tx context false rewardPool = some (response, context', rewardPool'))
    (hok : response.Code = Code.OK) (hgp : tx.GasPrice < 2 ^ 63) :
    rewardPool' - rewardPool
      = (tx.GasPrice : Int) * data.Gas env * env.CommissionMultiplier ∧
    (0 ≤ env.CommissionMultiplier → rewardPool ≤ rewardPool') := by
  obtain ⟨hpool, -, -⟩ := Run_exec_pool_nonce env data tx context rewardPool response
    context' rewardPool' h hok
  rw [commissionInBaseCoin_of_lt env data tx hgp] at hpool
  refine ⟨by rw [hpool]; ring, fun hcm => ?_⟩
  have hgas : (0 : Int) ≤ (tx.GasPrice : Int) * data.Gas env :=
    mul_nonneg (Int.ofNat_nonneg _) (le_of_lt (Gas_pos env data))
  have := mul_nonneg hgas hcm
  omega

/-- The reward pool after the execution paying in `GASCOIN`, from the pool 5:
`5 + 10 ^ 21`. -/
theorem Run_exec_pool_witness :
    ∃ response context' rewardPool',
      testData.Run testEnv gasTx gasState false 5 = some (response, context', rewardPool') ∧
      response.Code = Code.OK ∧ rewardPool' - 5 = 10 ^ 21 ∧ (5 : Int) ≤ rewardPool' := by
  have hcode : (testData.Run testEnv gasTx gasState false 5).map (fun out => out.1.Code)
      = some Code.OK := by decide
  rcases hrun : testData.Run testEnv gasTx gasState false 5 with
    _ | ⟨response, context', rewardPool'⟩
  · rw [hrun] at hcode
    exact absurd hcode (by simp)
  · rw [hrun] at hcode
    have hok : response.Code = Code.OK := by simpa using hcode
    obtain ⟨hdiff, hmono⟩ := Run_exec_pool testEnv testData gasTx gasState 5 response
      context' rewardPool' hrun hok (by decide)
    have hexp : (gasTx.GasPrice : Int) * testData.Gas testEnv * testEnv.CommissionMultiplier
        = 10 ^ 21 := by decide
    exact ⟨response, context', rewardPool', rfl, hok, by rw [hdiff, hexp],
      hmono (by decide)⟩

/-- C12: after a successful execution (code `OK`, `isCheck = false`) of a transaction that
carries the nonce the envelope accepts, the current nonce of the sender plus 1, the nonce
of the sender is the nonce before plus 1, and the nonce of every other address is as
before. -/
theorem Run_exec_nonce (env : Env) (data : CreateCoinData) (tx : Transaction)
    (context : StateDB) (rewardPool : Int) (response : Response) (context' : StateDB)
    (rewardPool' : Int)
    (h : data.Run env tx context false rewardPool = some (response, context', rewardPool'))
    (hok : response.Code = Code.OK)
    (hnonce : tx.Nonce = context.GetNonce tx.sender + 1) :
    context'.GetNonce tx.sender = context.GetNonce tx.sender + 1 ∧
    (∀ addr, addr ≠ tx.sender → context'.GetNonce addr = context.GetNonce addr) := by
  obtain ⟨-, hn, hothers⟩ := Run_exec_pool_nonce env data tx context rewardPool response
    context' rewardPool' h hok
  exact ⟨by rw [hn, hnonce], hothers⟩

/-- The nonce of the sender after the execution of the test: 1, the nonce before plus 1. -/
theorem Run_exec_nonce_witness :
    ∃ response context' rewardPool',
      testData.Run testEnv testTx testState false 0 = some (response, context', rewardPool') ∧
      response.Code = Code.OK ∧
      context'.GetNonce testTx.sender = testState.GetNonce testTx.sender + 1 ∧
      context'.GetNonce testTx.sender = 1 := by
  have hcode : (testData.Run testEnv testTx testState false 0).map (fun out => out.1.Code)
      = some Code.OK := by decide
  rcases hrun : testData.Run testEnv testTx testState false 0 with
    _ | ⟨response, context', rewardPool'⟩
  · rw [hrun] at hcode
    exact absurd hcode (by simp)
  · rw [hrun] at hcode
    have hok : response.Code = Code.OK := by simpa using hcode
    have hn := (Run_exec_nonce testEnv testData testTx testState 0 response context'
      rewardPool' hrun hok (by decide)).1
    exact ⟨response, context', rewardPool', rfl, hok, hn, by rw [hn]; decide⟩


end Noah
